import Mathlib

/-!
Verification development for the `tg-session-web` session lifecycle core
(`src/session_manager.py`, `src/telegram_client.py`, `src/models.py`,
`src/bot_notifier.py`).

Python values are modelled as follows: `str` as `String` (or `List Char` for
character-level reasoning in `mask_sensitive_data`), Python `int` as `Int`
(Telegram ids) or `Nat` (counters, timestamps, seconds), `datetime` as a `Nat`
timestamp (all that the code uses is its total order), `dict` as an
association list with distinct keys in insertion order, and `None`/value as
`Option`.  Effects are made explicit: the notification side channel
(`BotNotifier.send_success/send_failure/send_cleanup`) is an append-only list
recorded in the state, the data directory is a `uuid → record` association
list, and the APScheduler job table is the list of job ids.  Randomness and
external-call outcomes are resolved by explicit parameters.
-/

namespace TgSessionWeb

/-! ### Association lists modelling Python dicts -/

section AssocKit

variable {κ β : Type} [DecidableEq κ]

/-- Dict lookup: first entry with the given key (keys are kept distinct). -/
def alookup (k : κ) : List (κ × β) → Option β
  | [] => none
  | (k', v) :: l => if k' = k then some v else alookup k l

/-- Dict deletion (`del d[k]`): drop the entry with key `k`. -/
def aerase (k : κ) (l : List (κ × β)) : List (κ × β) :=
  l.filter (fun p => p.1 ≠ k)

/-- Dict assignment (`d[k] = v`): replace in place, or append a new entry. -/
def aupsert (k : κ) (v : β) : List (κ × β) → List (κ × β)
  | [] => [(k, v)]
  | (k', v') :: l => if k' = k then (k, v) :: l else (k', v') :: aupsert k v l

/-- The key list of an association list. -/
def akeys (l : List (κ × β)) : List κ :=
  l.map Prod.fst

theorem alookup_eq_some_mem {k : κ} {v : β} :
    ∀ {l : List (κ × β)}, alookup k l = some v → (k, v) ∈ l := by
  intro l h
  induction l with
  | nil => simp [alookup] at h
  | cons p l ih =>
    obtain ⟨k', v'⟩ := p
    by_cases hk : k' = k
    · subst hk
      simp [alookup] at h
      simp [h]
    · simp [alookup, hk] at h
      exact List.mem_cons_of_mem _ (ih h)

theorem alookup_eq_none_iff {k : κ} {l : List (κ × β)} :
    alookup k l = none ↔ k ∉ akeys l := by
  induction l with
  | nil => simp [alookup, akeys]
  | cons p l ih =>
    obtain ⟨k', v'⟩ := p
    by_cases hk : k' = k
    · subst hk
      simp [alookup, akeys]
    · simp [alookup, hk, akeys, Ne.symm hk] at ih ⊢
      exact ih

theorem alookup_of_mem_of_nodup {k : κ} {v : β} {l : List (κ × β)}
    (hnd : (akeys l).Nodup) (hmem : (k, v) ∈ l) : alookup k l = some v := by
  induction l with
  | nil => simp at hmem
  | cons p l ih =>
    obtain ⟨k', v'⟩ := p
    simp only [akeys, List.map_cons, List.nodup_cons] at hnd
    rcases List.mem_cons.1 hmem with h | h
    · obtain ⟨h1, h2⟩ := Prod.mk.injEq .. ▸ h
      subst h1; subst h2
      simp [alookup]
    · have hk : k' ≠ k := by
        intro he
        subst he
        exact hnd.1 (List.mem_map.2 ⟨(k', v), h, rfl⟩)
      simp [alookup, hk]
      exact ih hnd.2 h

theorem alookup_aupsert_self (k : κ) (v : β) (l : List (κ × β)) :
    alookup k (aupsert k v l) = some v := by
  induction l with
  | nil => simp [aupsert, alookup]
  | cons p l ih =>
    obtain ⟨k', v'⟩ := p
    by_cases hk : k' = k
    · simp [aupsert, hk, alookup]
    · simp [aupsert, hk, alookup, ih]

theorem alookup_aupsert_ne {k k' : κ} (v : β) (l : List (κ × β)) (h : k' ≠ k) :
    alookup k' (aupsert k v l) = alookup k' l := by
  induction l with
  | nil => simp [aupsert, alookup, Ne.symm h]
  | cons p l ih =>
    obtain ⟨k'', v''⟩ := p
    by_cases hk : k'' = k
    · subst hk
      simp [aupsert, alookup, Ne.symm h, h]
    · by_cases hk2 : k'' = k'
      · subst hk2
        simp [aupsert, hk, alookup]
      · simp [aupsert, hk, alookup, hk2, ih]

theorem alookup_aerase_self (k : κ) (l : List (κ × β)) :
    alookup k (aerase k l) = none := by
  induction l with
  | nil => simp [aerase, alookup]
  | cons p l ih =>
    obtain ⟨k', v'⟩ := p
    by_cases hk : k' = k
    · simpa [aerase, List.filter_cons, hk] using ih
    · simpa [aerase, List.filter_cons, hk, alookup] using ih

theorem alookup_aerase_ne {k k' : κ} (l : List (κ × β)) (h : k' ≠ k) :
    alookup k' (aerase k l) = alookup k' l := by
  induction l with
  | nil => simp [aerase, alookup]
  | cons p l ih =>
    obtain ⟨k'', v''⟩ := p
    by_cases hk : k'' = k
    · subst hk
      simp [aerase, List.filter_cons, alookup, Ne.symm h] at ih ⊢
      exact ih
    · by_cases hk2 : k'' = k'
      · subst hk2
        simp [aerase, List.filter_cons, hk, alookup]
      · simp [aerase, List.filter_cons, hk, alookup, hk2] at ih ⊢
        exact ih

theorem mem_akeys_aupsert {k k' : κ} {v : β} {l : List (κ × β)} :
    k' ∈ akeys (aupsert k v l) ↔ k' = k ∨ k' ∈ akeys l := by
  induction l with
  | nil => simp [aupsert, akeys]
  | cons p l ih =>
    obtain ⟨k'', v''⟩ := p
    by_cases hk : k'' = k
    · subst hk
      simp [aupsert, akeys]
    · simp [aupsert, hk, akeys] at ih ⊢
      tauto

theorem nodup_akeys_aupsert {k : κ} {v : β} {l : List (κ × β)}
    (h : (akeys l).Nodup) : (akeys (aupsert k v l)).Nodup := by
  induction l with
  | nil => simp [aupsert, akeys]
  | cons p l ih =>
    obtain ⟨k'', v''⟩ := p
    simp only [akeys, List.map_cons, List.nodup_cons] at h
    by_cases hk : k'' = k
    · subst hk
      simp only [aupsert, if_pos rfl]
      simpa [akeys] using h
    · simp only [aupsert, if_neg hk, akeys, List.map_cons, List.nodup_cons]
      refine ⟨?_, ih h.2⟩
      intro hmem
      rcases (mem_akeys_aupsert (l := l)).1 hmem with he | he
      · exact hk he
      · exact h.1 he

theorem nodup_akeys_aerase {k : κ} {l : List (κ × β)}
    (h : (akeys l).Nodup) : (akeys (aerase k l)).Nodup := by
  have hsub : List.Sublist (aerase k l) l := List.filter_sublist _
  exact (hsub.map Prod.fst).nodup h

theorem aupsert_eq_append {k : κ} (v : β) {l : List (κ × β)}
    (h : k ∉ akeys l) : aupsert k v l = l ++ [(k, v)] := by
  induction l with
  | nil => simp [aupsert]
  | cons p l ih =>
    obtain ⟨k', v'⟩ := p
    simp only [akeys, List.map_cons, List.mem_cons] at h
    push_neg at h
    simp [aupsert, Ne.symm h.1, ih h.2]

theorem alookup_append_of_some {k : κ} {v : β} {l l' : List (κ × β)}
    (h : alookup k l = some v) : alookup k (l ++ l') = some v := by
  induction l with
  | nil => simp [alookup] at h
  | cons p l ih =>
    obtain ⟨k', v'⟩ := p
    by_cases hk : k' = k
    · simp [alookup, hk] at h ⊢
      exact h
    · simp [alookup, hk] at h ⊢
      exact ih h

theorem alookup_append_of_none {k : κ} {l l' : List (κ × β)}
    (h : alookup k l = none) : alookup k (l ++ l') = alookup k l' := by
  induction l with
  | nil => simp
  | cons p l ih =>
    obtain ⟨k', v'⟩ := p
    by_cases hk : k' = k
    · simp [alookup, hk] at h
    · simp [alookup, hk] at h ⊢
      exact ih h

end AssocKit

/-! ### Data model (src/models.py `SessionData`, src/session_manager.py `Config`) -/

/-- `SessionData` from src/models.py: one persisted keepalive task.
`created_at`/`last_heartbeat` are modelled as `Nat` timestamps (the code only
compares them). -/
structure SessionData where
  uuid : String
  tg_id : Int
  session_string : String
  notify_chat_id : Int
  consecutive_failures : Nat
  created_at : Nat
  last_heartbeat : Option Nat
deriving DecidableEq

/-- `Config` from src/session_manager.py, restricted to the fields the
lifecycle logic reads (`api_id`/`api_hash`/bot fields are only passed
through to collaborators). -/
structure Config where
  interval_seconds : Nat
  jitter_seconds : Nat
  max_failures : Nat
deriving DecidableEq

/-- One message sent through `BotNotifier` (src/bot_notifier.py): the three
intents `send_success`, `send_failure`, `send_cleanup` with their payloads. -/
inductive Notification where
  | success (chat_id : Int) (uuid : String)
  | failure (chat_id : Int) (uuid : String) (error : String)
  | cleanup (chat_id : Int) (uuid : String) (reason : String)
deriving DecidableEq

/-- The observable state of a `SessionManager` plus its environment:
`sessions` and `tg_id_to_uuid` are the two in-memory dicts, `files` is the
data directory (filename stem ↦ parsed record), `jobs` is the APScheduler
job-id table, and `notifications` is the append-only log of messages handed
to the notifier, in send order. -/
structure MState where
  sessions : List (String × SessionData)
  tg_id_to_uuid : List (Int × String)
  files : List (String × SessionData)
  jobs : List String
  notifications : List Notification
deriving DecidableEq

/-- A fresh manager over a data directory (`SessionManager.__init__`):
both indices empty, no jobs, no notifications, arbitrary directory
contents. -/
def initState (files : List (String × SessionData)) : MState :=
  ⟨[], [], files, [], []⟩

/-- The data directory of `initState`/`Reach` start states is well formed:
filenames are distinct, and each record's `uuid` field matches its filename
stem (which is how `_save_session_file` always writes files). -/
def WFfiles (files : List (String × SessionData)) : Prop :=
  (akeys files).Nodup ∧ ∀ p ∈ files, (Prod.snd p).uuid = Prod.fst p

instance (files : List (String × SessionData)) : Decidable (WFfiles files) := by
  unfold WFfiles
  infer_instance

/-! ### mask_sensitive_data (identical in src/session_manager.py and
src/telegram_client.py) -/

/-- The ellipsis marker `"..."` appended by `mask_sensitive_data`. -/
def ellipsisMarker : List Char := ['.', '.', '.']

/-- `mask_sensitive_data(data, visible_chars=10)`: Python `str` modelled as
`List Char`.  `if not data: return ""`; short strings (`len <= visible_chars`)
return `data[:3] + "..."`, longer ones `data[:visible_chars] + "..."`. -/
def mask_sensitive_data (data : List Char) (visible_chars : Nat := 10) : List Char :=
  if data = [] then []
  else if data.length ≤ visible_chars then data.take 3 ++ ellipsisMarker
  else data.take visible_chars ++ ellipsisMarker

/-! ### handle_telegram_errors (src/telegram_client.py) -/

/-- The Telethon error classes distinguished by `handle_telegram_errors`,
plus `valueError` for the `ValueError`s the wrapper itself raises and
`other` for everything else. -/
inductive TgErr where
  | floodWait (seconds : Nat)
  | authKeyUnregistered
  | phoneCodeInvalid
  | phoneCodeExpired
  | passwordHashInvalid
  | valueError (msg : String)
  | other (msg : String)
deriving DecidableEq

/-- The error conversions performed by the `except` clauses of
`handle_telegram_errors` (a bare `raise` for anything else). -/
def classifyTgErr : TgErr → TgErr
  | .authKeyUnregistered => .valueError "Session expired or invalid"
  | .phoneCodeInvalid => .valueError "Invalid verification code"
  | .phoneCodeExpired => .valueError "Verification code expired"
  | .passwordHashInvalid => .valueError "Invalid 2FA password"
  | e => e

/-- `handle_telegram_errors` decorator: `f n` is the outcome of the `n`-th
invocation of the wrapped coroutine.  On `FloodWaitError e` the wrapper
sleeps `e.seconds + 5` and re-issues the call once, returning the retry's
outcome unprotected (the retry runs inside the `except FloodWaitError`
handler, so none of the surrounding `except` clauses apply to it).  Other
recognized errors are converted per `classifyTgErr`; the result is the final
outcome paired with the list of sleeps performed. -/
def handle_telegram_errors {α : Type} (f : Nat → Except TgErr α) :
    Except TgErr α × List Nat :=
  match f 0 with
  | .ok a => (.ok a, [])
  | .error (.floodWait t) => (f 1, [t + 5])
  | .error e => (.error (classifyTgErr e), [])

/-! ### SessionManager operations (src/session_manager.py) -/

/-- `_calculate_next_interval`: `random.randint(0, jitter_seconds)` is
resolved by the explicit `draw` parameter; the result is
`interval_seconds + draw`. -/
def calculate_next_interval (cfg : Config) (draw : Nat) : Nat :=
  cfg.interval_seconds + draw

/-- `scheduler.add_job(..., id=uuid, replace_existing=True)`: register the
job id if it is not already present. -/
def addJob (uuid : String) (jobs : List String) : List String :=
  if uuid ∈ jobs then jobs else jobs ++ [uuid]

/-- The cleanup reason used both by startup reconciliation and by
`create_task` when replacing an existing task for the same tg_id. -/
def replacedReason : String := "被新任务替换"

/-- The cleanup reason used when the failure threshold is reached. -/
def maxFailReason (maxFailures : Nat) : String :=
  "连续失败 " ++ toString maxFailures ++ " 次"

/-- `SessionManager.cleanup_task(uuid, reason)`.  A missing uuid logs and
returns (state unchanged).  Otherwise: send the cleanup notification, stop
the scheduler job (failures are swallowed), delete the session file
(`unlinkOk` resolves whether `file_path.unlink()` succeeds; on failure the
exception is caught and logged), remove the uuid from `sessions`, and remove
the `tg_id → uuid` entry only if it still points at this uuid. -/
def cleanup_task (unlinkOk : Bool) (uuid reason : String) (s : MState) : MState :=
  match alookup uuid s.sessions with
  | none => s
  | some d =>
    { sessions := aerase uuid s.sessions
      tg_id_to_uuid :=
        match alookup d.tg_id s.tg_id_to_uuid with
        | some u => if u = uuid then aerase d.tg_id s.tg_id_to_uuid else s.tg_id_to_uuid
        | none => s.tg_id_to_uuid
      files := if unlinkOk then aerase uuid s.files else s.files
      jobs := s.jobs.erase uuid
      notifications := s.notifications ++ [.cleanup d.notify_chat_id uuid reason] }

/-- `SessionManager.create_task(session_string, notify_chat_id)`.
`validateOutcome` is the result of `telegram_client.validate_session`
(`.ok tg_id`, or `.error e` when the wrapper raises); `newUuid` resolves
`uuid.uuid4()` and `now` resolves `datetime.utcnow()`.  On a validation
error the exception propagates before any state is touched.  Otherwise an
existing task for the same tg_id is cleaned up first, then the new record is
built with `consecutive_failures=0` and `last_heartbeat=None`, persisted,
inserted into both indices, and scheduled. -/
def create_task (validateOutcome : Except String Int) (newUuid : String)
    (now : Nat) (session_string : String) (notify_chat_id : Int)
    (s : MState) : Except String String × MState :=
  match validateOutcome with
  | .error e => (.error e, s)
  | .ok tg_id =>
    let s1 :=
      match alookup tg_id s.tg_id_to_uuid with
      | some old_uuid => cleanup_task true old_uuid replacedReason s
      | none => s
    let d : SessionData :=
      { uuid := newUuid, tg_id := tg_id, session_string := session_string
        notify_chat_id := notify_chat_id, consecutive_failures := 0
        created_at := now, last_heartbeat := none }
    (.ok newUuid,
      { sessions := aupsert newUuid d s1.sessions
        tg_id_to_uuid := aupsert tg_id newUuid s1.tg_id_to_uuid
        files := aupsert newUuid d s1.files
        jobs := addJob newUuid s1.jobs
        notifications := s1.notifications })

/-- `SessionManager._handle_success(uuid)`: reset `consecutive_failures` to
0, set `last_heartbeat` to now, persist, send a success notification.
`d` is the record found in `sessions[uuid]` by the caller. -/
def handle_success (now : Nat) (uuid : String) (d : SessionData) (s : MState) : MState :=
  let d' := { d with consecutive_failures := 0, last_heartbeat := some now }
  { s with sessions := aupsert uuid d' s.sessions
           files := aupsert uuid d' s.files
           notifications := s.notifications ++ [.success d.notify_chat_id uuid] }

/-- `SessionManager._handle_failure(uuid, error)`: increment
`consecutive_failures`, persist, send a failure notification, and if the
counter has reached `max_failures`, run the full cleanup. -/
def handle_failure (cfg : Config) (err : String) (uuid : String)
    (d : SessionData) (s : MState) : MState :=
  let d' := { d with consecutive_failures := d.consecutive_failures + 1 }
  let s1 := { s with sessions := aupsert uuid d' s.sessions
                     files := aupsert uuid d' s.files
                     notifications := s.notifications ++ [.failure d.notify_chat_id uuid err] }
  if cfg.max_failures ≤ d'.consecutive_failures then
    cleanup_task true uuid (maxFailReason cfg.max_failures) s1
  else s1

/-- `SessionManager.execute_heartbeat(uuid)`: a missing uuid is a no-op
(race guard).  `outcome` resolves `telegram_client.heartbeat`: `none` for a
`True` return, `some err` for a `False` return (`err = "Heartbeat returned
False"`) or for a raised exception (`err = str(e)`). -/
def execute_heartbeat (cfg : Config) (outcome : Option String) (now : Nat)
    (uuid : String) (s : MState) : MState :=
  match alookup uuid s.sessions with
  | none => s
  | some d =>
    match outcome with
    | none => handle_success now uuid d s
    | some err => handle_failure cfg err uuid d s

/-! ### Startup reconciliation (`SessionManager.initialize`, modelled here
as `initManager`) -/

/-- Phase 1 of startup: load every parseable session file into the dict
`all_sessions`, keyed by the record's `uuid` field
(`all_sessions[session_data.uuid] = session_data`).  Records that fail to
parse or validate are skipped by the code and are modelled as absent from
`files`. -/
def load_all (files : List (String × SessionData)) : List (String × SessionData) :=
  files.foldl (fun acc p => aupsert p.2.uuid p.2 acc) []

/-- Worker for `firstKeys`: `seen` collects the keys already emitted. -/
def firstKeysAux (seen : List Int) : List Int → List Int
  | [] => []
  | t :: rest =>
    if t ∈ seen then firstKeysAux seen rest
    else t :: firstKeysAux (t :: seen) rest

/-- The keys of `tg_id_groups` in first-occurrence order (Python dict
insertion order while grouping). -/
def firstKeys (l : List Int) : List Int := firstKeysAux [] l

/-- The group `tg_id_groups[tg]`: all loaded entries with this tg_id, in
load order. -/
def groupFor (tg : Int) (allSessions : List (String × SessionData)) :
    List (String × SessionData) :=
  allSessions.filter (fun p => p.2.tg_id = tg)

/-- Python `max(uuid_list, key=lambda x: x[1])` over a nonempty group: left
fold keeping the earliest entry with maximal `created_at`. -/
def newestIn (g : String × SessionData) (gs : List (String × SessionData)) :
    String × SessionData :=
  gs.foldl (fun best x => if best.2.created_at < x.2.created_at then x else best) g

/-- Phase 3, keep side: the single uuid kept for a tg_id group (`none` only
for a tg_id with no loaded entry, which does not occur for keys of
`tg_id_groups`). -/
def keepOf (tg : Int) (allSessions : List (String × SessionData)) : Option String :=
  match groupFor tg allSessions with
  | [] => none
  | g :: gs => some (newestIn g gs).1

/-- Phase 3, delete side: the members other than the newest of a group with
more than one member. -/
def delsOf (tg : Int) (allSessions : List (String × SessionData)) : List String :=
  match groupFor tg allSessions with
  | [] => []
  | [_] => []
  | g :: gs => ((g :: gs).filter (fun p => p.1 ≠ (newestIn g gs).1)).map Prod.fst

/-- Phase 4, keep-loop body: store the record in the cache, update the
tg_id mapping, and schedule the heartbeat job. -/
def keepStep (allSessions : List (String × SessionData)) (st : MState) (u : String) : MState :=
  match alookup u allSessions with
  | none => st
  | some d =>
    { st with sessions := aupsert u d st.sessions
              tg_id_to_uuid := aupsert d.tg_id u st.tg_id_to_uuid
              jobs := addJob u st.jobs }

/-- Phase 4, delete-loop body: send the cleanup notification, then delete
the duplicate's file. -/
def delStep (allSessions : List (String × SessionData)) (st : MState) (u : String) : MState :=
  match alookup u allSessions with
  | none => st
  | some d =>
    { st with notifications := st.notifications ++ [.cleanup d.notify_chat_id u replacedReason]
              files := aerase u st.files }

/-- `SessionManager.initialize()` (named `initManager` here): load all
files, group by tg_id, keep only the newest member of each group, store and
schedule the kept tasks, then notify-and-delete the replaced duplicates.
Existing in-memory entries are left untouched. -/
def initManager (s : MState) : MState :=
  let allSessions := load_all s.files
  let tgs := firstKeys (allSessions.map (fun p => p.2.tg_id))
  let keeps := tgs.filterMap (fun tg => keepOf tg allSessions)
  let dels := tgs.flatMap (fun tg => delsOf tg allSessions)
  let s1 := keeps.foldl (keepStep allSessions) s
  dels.foldl (delStep allSessions) s1

/-! ### Reachable states and the uniqueness invariant -/

/-- States reachable from a fresh manager over a well-formed data directory
by any sequence of the three lifecycle operations (the state space of claim
C1).  `stepCreate` resolves `uuid.uuid4()` with a uuid not currently in use
in memory or on disk; a `create_task` whose validation fails leaves the
state unchanged, so only successful validations are listed. -/
inductive Reach : MState → Prop
  | start (files : List (String × SessionData)) (hwf : WFfiles files) :
      Reach (initState files)
  | stepInit {s : MState} : Reach s → Reach (initManager s)
  | stepCreate {s : MState} (tg_id : Int) (newUuid : String) (now : Nat)
      (session_string : String) (notify_chat_id : Int)
      (hfresh : newUuid ∉ akeys s.sessions ∧ newUuid ∉ akeys s.files) :
      Reach s →
      Reach (create_task (.ok tg_id) newUuid now session_string notify_chat_id s).2
  | stepCleanup {s : MState} (unlinkOk : Bool) (uuid reason : String) :
      Reach s → Reach (cleanup_task unlinkOk uuid reason s)

/-- Like `Reach`, but startup reconciliation happens at most once, as the
very first operation — the pattern the program actually follows
(src/web_server.py runs `initialize()` once in the startup lifespan before
serving any request). -/
inductive ReachInit : MState → Prop
  | startRaw (files : List (String × SessionData)) (hwf : WFfiles files) :
      ReachInit (initState files)
  | startInit (files : List (String × SessionData)) (hwf : WFfiles files) :
      ReachInit (initManager (initState files))
  | stepCreate {s : MState} (tg_id : Int) (newUuid : String) (now : Nat)
      (session_string : String) (notify_chat_id : Int)
      (hfresh : newUuid ∉ akeys s.sessions ∧ newUuid ∉ akeys s.files) :
      ReachInit s →
      ReachInit (create_task (.ok tg_id) newUuid now session_string notify_chat_id s).2
  | stepCleanup {s : MState} (unlinkOk : Bool) (uuid reason : String) :
      ReachInit s → ReachInit (cleanup_task unlinkOk uuid reason s)

/-- Live tasks carry pairwise distinct tg_ids. -/
def tgUnique (s : MState) : Prop :=
  s.sessions.Pairwise (fun p q => p.1 ≠ q.1 → p.2.tg_id ≠ q.2.tg_id)

instance (s : MState) : Decidable (tgUnique s) := by
  unfold tgUnique
  exact List.instDecidablePairwise _

/-- Every reverse-index entry points at a live task carrying that tg_id. -/
def revCorrect (s : MState) : Prop :=
  ∀ p ∈ s.tg_id_to_uuid, ∃ d, alookup p.2 s.sessions = some d ∧ d.tg_id = p.1

/-- Every live task is indexed under its tg_id. -/
def revComplete (s : MState) : Prop :=
  ∀ p ∈ s.sessions, alookup p.2.tg_id s.tg_id_to_uuid = some p.1

/-- The inductive invariant: both dicts have distinct keys and the two
indices are mutually consistent. -/
def Inv (s : MState) : Prop :=
  (akeys s.sessions).Nodup ∧ (akeys s.tg_id_to_uuid).Nodup ∧
    revCorrect s ∧ revComplete s

theorem tgUnique_of_inv {s : MState} (h : Inv s) : tgUnique s := by
  obtain ⟨hnd, -, -, hcomp⟩ := h
  unfold tgUnique
  rw [List.pairwise_iff_forall_sublist]
  intro p q hsub
  intro hne htg
  have hp : p ∈ s.sessions := hsub.subset (by simp)
  have hq : q ∈ s.sessions := hsub.subset (by simp)
  have h1 := hcomp p hp
  have h2 := hcomp q hq
  rw [htg] at h1
  rw [h1] at h2
  exact hne (by injection h2)

/-! ### Component lemmas for `cleanup_task` and the heartbeat handlers -/

theorem cleanup_task_of_none {s : MState} {uuid : String} (unlinkOk : Bool)
    (reason : String) (h : alookup uuid s.sessions = none) :
    cleanup_task unlinkOk uuid reason s = s := by
  simp [cleanup_task, h]

theorem cleanup_task_sessions {s : MState} {uuid : String} {d : SessionData}
    (unlinkOk : Bool) (reason : String) (h : alookup uuid s.sessions = some d) :
    (cleanup_task unlinkOk uuid reason s).sessions = aerase uuid s.sessions := by
  simp [cleanup_task, h]

theorem cleanup_task_files {s : MState} {uuid : String} {d : SessionData}
    (unlinkOk : Bool) (reason : String) (h : alookup uuid s.sessions = some d) :
    (cleanup_task unlinkOk uuid reason s).files =
      if unlinkOk then aerase uuid s.files else s.files := by
  simp [cleanup_task, h]

theorem cleanup_task_notifications {s : MState} {uuid : String} {d : SessionData}
    (unlinkOk : Bool) (reason : String) (h : alookup uuid s.sessions = some d) :
    (cleanup_task unlinkOk uuid reason s).notifications =
      s.notifications ++ [.cleanup d.notify_chat_id uuid reason] := by
  simp [cleanup_task, h]

theorem cleanup_task_lookup_self (unlinkOk : Bool) (uuid reason : String)
    (s : MState) : alookup uuid (cleanup_task unlinkOk uuid reason s).sessions = none := by
  cases h : alookup uuid s.sessions with
  | none => rw [cleanup_task_of_none unlinkOk reason h, h]
  | some d => rw [cleanup_task_sessions unlinkOk reason h, alookup_aerase_self]

/-- One failing heartbeat below the threshold: record updated and persisted,
one failure notification, no cleanup. -/
theorem execute_heartbeat_fail_lt {cfg : Config} {s : MState} {uuid : String}
    {d : SessionData} (err : String) (now : Nat)
    (hd : alookup uuid s.sessions = some d)
    (hlt : d.consecutive_failures + 1 < cfg.max_failures) :
    execute_heartbeat cfg (some err) now uuid s =
      { s with
          sessions := aupsert uuid
            { d with consecutive_failures := d.consecutive_failures + 1 } s.sessions
          files := aupsert uuid
            { d with consecutive_failures := d.consecutive_failures + 1 } s.files
          notifications := s.notifications ++ [.failure d.notify_chat_id uuid err] } := by
  have hnot : ¬ cfg.max_failures ≤ d.consecutive_failures + 1 := Nat.not_le.2 hlt
  simp [execute_heartbeat, hd, handle_failure, hnot]

/-- One failing heartbeat reaching the threshold: record updated and
persisted, one failure notification, then the full cleanup runs. -/
theorem execute_heartbeat_fail_ge {cfg : Config} {s : MState} {uuid : String}
    {d : SessionData} (err : String) (now : Nat)
    (hd : alookup uuid s.sessions = some d)
    (hge : cfg.max_failures ≤ d.consecutive_failures + 1) :
    execute_heartbeat cfg (some err) now uuid s =
      cleanup_task true uuid (maxFailReason cfg.max_failures)
        { s with
            sessions := aupsert uuid
              { d with consecutive_failures := d.consecutive_failures + 1 } s.sessions
            files := aupsert uuid
              { d with consecutive_failures := d.consecutive_failures + 1 } s.files
            notifications := s.notifications ++ [.failure d.notify_chat_id uuid err] } := by
  simp [execute_heartbeat, hd, handle_failure, hge]

/-- A successful heartbeat: counter reset, timestamp recorded, persisted,
one success notification. -/
theorem execute_heartbeat_success {cfg : Config} {s : MState} {uuid : String}
    {d : SessionData} (now : Nat) (hd : alookup uuid s.sessions = some d) :
    execute_heartbeat cfg none now uuid s =
      { s with
          sessions := aupsert uuid
            { d with consecutive_failures := 0, last_heartbeat := some now } s.sessions
          files := aupsert uuid
            { d with consecutive_failures := 0, last_heartbeat := some now } s.files
          notifications := s.notifications ++ [.success d.notify_chat_id uuid] } := by
  simp [execute_heartbeat, hd, handle_success]

theorem cleanup_task_tgmap_of_points {s : MState} {u : String} {d : SessionData}
    (unlinkOk : Bool) (reason : String) (hd : alookup u s.sessions = some d)
    (hm : alookup d.tg_id s.tg_id_to_uuid = some u) :
    (cleanup_task unlinkOk u reason s).tg_id_to_uuid =
      aerase d.tg_id s.tg_id_to_uuid := by
  simp [cleanup_task, hd, hm]

/-! ### Concrete fixtures used by the witness theorems -/

def wUuid : String := "33333333-3333-4333-8333-333333333333"

def wAbsent : String := "44444444-4444-4444-8444-444444444444"

def wData : SessionData :=
  { uuid := wUuid, tg_id := 42, session_string := "w-sess", notify_chat_id := 5
    consecutive_failures := 0, created_at := 10, last_heartbeat := none }

def wConfig : Config :=
  { interval_seconds := 86400, jitter_seconds := 300, max_failures := 3 }

def wState : MState :=
  { sessions := [(wUuid, wData)], tg_id_to_uuid := [(42, wUuid)]
    files := [(wUuid, wData)], jobs := [wUuid], notifications := [] }

/-- A probe whose first call is rate-limited with retry-after 7 and whose
retry is rate-limited again. -/
def wFloodCall : Nat → Except TgErr Nat := fun n =>
  if n = 0 then Except.error (TgErr.floodWait 7)
  else Except.error (TgErr.floodWait 11)

/-! ### Claim theorems -/

/-- A failing heartbeat strictly below the threshold: counter up by one,
record persisted, one failure notification, task kept. -/
theorem heartbeat_fail_keep (c : Config) (s : MState) (u : String)
    (d : SessionData) (e : String) (t : Nat)
    (hd : alookup u s.sessions = some d)
    (hlt : d.consecutive_failures + 1 < c.max_failures) :
    alookup u (execute_heartbeat c (some e) t u s).sessions =
      some { d with consecutive_failures := d.consecutive_failures + 1 } ∧
    alookup u (execute_heartbeat c (some e) t u s).files =
      some { d with consecutive_failures := d.consecutive_failures + 1 } ∧
    (execute_heartbeat c (some e) t u s).notifications =
      s.notifications ++ [.failure d.notify_chat_id u e] := by
  rw [execute_heartbeat_fail_lt e t hd hlt]
  exact ⟨alookup_aupsert_self .., alookup_aupsert_self .., rfl⟩

/-- A failing heartbeat reaching the threshold: failure notification, then
the full cleanup — the task leaves the live index, its file is deleted,
and exactly one cleanup notification follows the failure notification. -/
theorem heartbeat_fail_cleanup (c : Config) (s : MState) (u : String)
    (d : SessionData) (e : String) (t : Nat)
    (hd : alookup u s.sessions = some d)
    (hge : c.max_failures ≤ d.consecutive_failures + 1) :
    alookup u (execute_heartbeat c (some e) t u s).sessions = none ∧
    alookup u (execute_heartbeat c (some e) t u s).files = none ∧
    (execute_heartbeat c (some e) t u s).notifications =
      s.notifications ++
        [.failure d.notify_chat_id u e,
         .cleanup d.notify_chat_id u (maxFailReason c.max_failures)] := by
  rw [execute_heartbeat_fail_ge e t hd hge]
  have hd' : alookup u ({ s with
      sessions := aupsert u
        { d with consecutive_failures := d.consecutive_failures + 1 } s.sessions
      files := aupsert u
        { d with consecutive_failures := d.consecutive_failures + 1 } s.files
      notifications := s.notifications ++ [.failure d.notify_chat_id u e] } :
        MState).sessions = some
      { d with consecutive_failures := d.consecutive_failures + 1 } :=
    alookup_aupsert_self ..
  refine ⟨cleanup_task_lookup_self .., ?_, ?_⟩
  · rw [cleanup_task_files true _ hd']
    simp [alookup_aerase_self]
  · rw [cleanup_task_notifications true _ hd']
    simp

/-- A successful heartbeat: counter reset to 0, timestamp set, record
persisted, one success notification. -/
theorem heartbeat_success_facts (c : Config) (s : MState) (u : String)
    (d : SessionData) (t : Nat) (hd : alookup u s.sessions = some d) :
    alookup u (execute_heartbeat c none t u s).sessions =
      some { d with consecutive_failures := 0, last_heartbeat := some t } ∧
    alookup u (execute_heartbeat c none t u s).files =
      some { d with consecutive_failures := 0, last_heartbeat := some t } ∧
    (execute_heartbeat c none t u s).notifications =
      s.notifications ++ [.success d.notify_chat_id u] := by
  rw [execute_heartbeat_success t hd]
  exact ⟨alookup_aupsert_self .., alookup_aupsert_self .., rfl⟩

/-- C4: after a successful heartbeat the handler stores the task back with
`consecutive_failures = 0` and `last_heartbeat = now`, persists exactly that
record to the task's file, and appends one success notification — for every
live task and every prior failure count. -/
theorem C4_success_resets_counter (cfg : Config) (s : MState) (uuid : String)
    (d : SessionData) (now : Nat) (hd : alookup uuid s.sessions = some d) :
    alookup uuid (execute_heartbeat cfg none now uuid s).sessions =
      some { d with consecutive_failures := 0, last_heartbeat := some now } ∧
    alookup uuid (execute_heartbeat cfg none now uuid s).files =
      some { d with consecutive_failures := 0, last_heartbeat := some now } ∧
    (execute_heartbeat cfg none now uuid s).notifications =
      s.notifications ++ [.success d.notify_chat_id uuid] :=
  heartbeat_success_facts cfg s uuid d now hd

/-- Witness for C4 at a concrete one-task state with a nonzero prior
failure count modified in. -/
theorem C4_witness :
    alookup wUuid (execute_heartbeat wConfig none 99 wUuid wState).sessions =
      some { wData with consecutive_failures := 0, last_heartbeat := some 99 } ∧
    alookup wUuid (execute_heartbeat wConfig none 99 wUuid wState).files =
      some { wData with consecutive_failures := 0, last_heartbeat := some 99 } ∧
    (execute_heartbeat wConfig none 99 wUuid wState).notifications =
      wState.notifications ++ [.success wData.notify_chat_id wUuid] :=
  C4_success_resets_counter wConfig wState wUuid wData 99 (by decide)

/-- C5: when validation classifies the credential as invalid, `create_task`
returns exactly that error and the entire state — live index, reverse
index, files, jobs, notifications, every task's failure counter — is the
state before the call; no retry happens (the construction consults the
outcome exactly once). -/
theorem C5_invalid_credential_propagates (s : MState) (e : String)
    (newUuid : String) (now : Nat) (session_string : String)
    (notify_chat_id : Int) :
    create_task (Except.error e) newUuid now session_string notify_chat_id s =
      (Except.error e, s) :=
  rfl

/-- C6: a first call that fails rate-limited with retry-after `t` makes the
gate sleep exactly once, for `t + 5` seconds, and re-issue the call exactly
once; the caller observes precisely the retry's outcome `f 1` — including a
second `floodWait`, which propagates rather than triggering another
retry. -/
theorem C6_rate_limited_retry {α : Type} (f : Nat → Except TgErr α) (t : Nat)
    (h : f 0 = Except.error (TgErr.floodWait t)) :
    handle_telegram_errors f = (f 1, [t + 5]) := by
  simp [handle_telegram_errors, h]

/-- Witness for C6: first call rate-limited with retry-after 7, retry
rate-limited again with retry-after 11; the second error propagates and
only one sleep of 12 seconds happens. -/
theorem C6_witness :
    handle_telegram_errors wFloodCall =
      (Except.error (TgErr.floodWait 11), [12]) :=
  C6_rate_limited_retry wFloodCall 7 rfl

/-- C7: every interval produced by the scheduling computation lies in
`[interval_seconds, interval_seconds + jitter_seconds]` inclusive, for
every possible outcome of `random.randint(0, jitter_seconds)`. -/
theorem C7_interval_in_jitter_range (cfg : Config) (draw : Nat)
    (h : draw ≤ cfg.jitter_seconds) :
    cfg.interval_seconds ≤ calculate_next_interval cfg draw ∧
    calculate_next_interval cfg draw ≤
      cfg.interval_seconds + cfg.jitter_seconds :=
  ⟨Nat.le_add_right _ _, Nat.add_le_add_left h _⟩

/-- Witness for C7 at the default configuration and draw 150. -/
theorem C7_witness :
    wConfig.interval_seconds ≤ calculate_next_interval wConfig 150 ∧
    calculate_next_interval wConfig 150 ≤
      wConfig.interval_seconds + wConfig.jitter_seconds :=
  C7_interval_in_jitter_range wConfig 150 (by decide)

/-- C9: `cleanup_task` is idempotent — a second cleanup of the same uuid is
a no-op (in particular it sends no further notification and raises no
error, the operation being total), and cleaning up a uuid absent from the
live index leaves the state unchanged. -/
theorem C9_cleanup_idempotent (s : MState) (ok ok' : Bool) (u r r' : String) :
    cleanup_task ok' u r' (cleanup_task ok u r s) = cleanup_task ok u r s ∧
    (alookup u s.sessions = none → cleanup_task ok u r s = s) :=
  ⟨cleanup_task_of_none ok' r' (cleanup_task_lookup_self ok u r s),
   fun h => cleanup_task_of_none ok r h⟩

/-- Witness for C9: double cleanup of a live uuid collapses to one, and
cleanup of an absent uuid is the identity, at a concrete state. -/
theorem C9_witness :
    cleanup_task true wUuid "b" (cleanup_task true wUuid "a" wState) =
      cleanup_task true wUuid "a" wState ∧
    cleanup_task true wAbsent "a" wState = wState :=
  ⟨(C9_cleanup_idempotent wState true true wUuid "a" "b").1,
   (C9_cleanup_idempotent wState true true wAbsent "a" "b").2 (by decide)⟩

/-- C10: when deleting the persisted file fails, `cleanup_task` still
completes (it is a total function: the exception is caught inside), the
task leaves the live index, the reverse-index entry is removed when it
still points at this uuid, the cleanup notification is still sent — and the
on-disk record survives with no corresponding live task. -/
theorem C10_cleanup_completes_on_unlink_failure (s : MState) (u r : String)
    (d fd : SessionData) (hd : alookup u s.sessions = some d)
    (hf : alookup u s.files = some fd) :
    alookup u (cleanup_task false u r s).sessions = none ∧
    (cleanup_task false u r s).files = s.files ∧
    alookup u (cleanup_task false u r s).files = some fd ∧
    (alookup d.tg_id s.tg_id_to_uuid = some u →
      alookup d.tg_id (cleanup_task false u r s).tg_id_to_uuid = none) ∧
    (cleanup_task false u r s).notifications =
      s.notifications ++ [.cleanup d.notify_chat_id u r] := by
  refine ⟨cleanup_task_lookup_self false u r s, ?_, ?_, ?_, ?_⟩
  · rw [cleanup_task_files false r hd]
    simp
  · rw [cleanup_task_files false r hd]
    simpa using hf
  · intro hm
    rw [cleanup_task_tgmap_of_points false r hd hm]
    exact alookup_aerase_self _ _
  · exact cleanup_task_notifications false r hd

/-- Witness for C10 at a concrete one-task state. -/
theorem C10_witness :
    alookup wUuid (cleanup_task false wUuid "r" wState).sessions = none ∧
    (cleanup_task false wUuid "r" wState).files = wState.files ∧
    alookup wUuid (cleanup_task false wUuid "r" wState).files = some wData ∧
    alookup wData.tg_id (cleanup_task false wUuid "r" wState).tg_id_to_uuid = none ∧
    (cleanup_task false wUuid "r" wState).notifications =
      wState.notifications ++ [.cleanup wData.notify_chat_id wUuid "r"] := by
  have h := C10_cleanup_completes_on_unlink_failure wState wUuid "r" wData wData
    (by decide) (by decide)
  exact ⟨h.1, h.2.1, h.2.2.1, h.2.2.2.1 (by decide), h.2.2.2.2⟩

/-- C2: with `max_failures = 3` and a live task whose counter is 0, each
failed heartbeat increments the counter by exactly 1; on the third
consecutive failure the task is removed from the live index, its file is
deleted, and the notification log shows the three failure notifications
followed by exactly one cleanup notification.  With only two failures
followed by a success, the task is never removed, its counter is 0
afterwards, and no cleanup notification is ever sent. -/
theorem C2_threshold_cleanup (cfg : Config) (s : MState) (u : String)
    (d : SessionData) (e1 e2 e3 f1 f2 : String) (t1 t2 t3 t4 t5 t6 : Nat)
    (hmax : cfg.max_failures = 3)
    (hd : alookup u s.sessions = some d)
    (h0 : d.consecutive_failures = 0) :
    (alookup u (execute_heartbeat cfg (some e1) t1 u s).sessions =
       some { d with consecutive_failures := 1 } ∧
     alookup u (execute_heartbeat cfg (some e2) t2 u
       (execute_heartbeat cfg (some e1) t1 u s)).sessions =
       some { d with consecutive_failures := 2 } ∧
     alookup u (execute_heartbeat cfg (some e3) t3 u
       (execute_heartbeat cfg (some e2) t2 u
         (execute_heartbeat cfg (some e1) t1 u s))).sessions = none ∧
     alookup u (execute_heartbeat cfg (some e3) t3 u
       (execute_heartbeat cfg (some e2) t2 u
         (execute_heartbeat cfg (some e1) t1 u s))).files = none ∧
     (execute_heartbeat cfg (some e3) t3 u
       (execute_heartbeat cfg (some e2) t2 u
         (execute_heartbeat cfg (some e1) t1 u s))).notifications =
       s.notifications ++
         [.failure d.notify_chat_id u e1, .failure d.notify_chat_id u e2,
          .failure d.notify_chat_id u e3,
          .cleanup d.notify_chat_id u (maxFailReason 3)]) ∧
    (alookup u (execute_heartbeat cfg none t6 u
       (execute_heartbeat cfg (some f2) t5 u
         (execute_heartbeat cfg (some f1) t4 u s))).sessions =
       some { d with consecutive_failures := 0, last_heartbeat := some t6 } ∧
     (execute_heartbeat cfg none t6 u
       (execute_heartbeat cfg (some f2) t5 u
         (execute_heartbeat cfg (some f1) t4 u s))).notifications =
       s.notifications ++
         [.failure d.notify_chat_id u f1, .failure d.notify_chat_id u f2,
          .success d.notify_chat_id u]) := by
  obtain ⟨ci, cj, cm⟩ := cfg
  replace hmax : cm = 3 := hmax
  subst hmax
  obtain ⟨du, dtg, dss, dch, dcf, dca, dlh⟩ := d
  replace h0 : dcf = 0 := h0
  subst h0
  have k1 := heartbeat_fail_keep ⟨ci, cj, 3⟩ s u _ e1 t1 hd
    (by show 0 + 1 < 3; decide)
  have k2 := heartbeat_fail_keep ⟨ci, cj, 3⟩ _ u _ e2 t2 k1.1
    (by show 0 + 1 + 1 < 3; decide)
  have k3 := heartbeat_fail_cleanup ⟨ci, cj, 3⟩ _ u _ e3 t3 k2.1
    (by show 3 ≤ 0 + 1 + 1 + 1; decide)
  have m1 := heartbeat_fail_keep ⟨ci, cj, 3⟩ s u _ f1 t4 hd
    (by show 0 + 1 < 3; decide)
  have m2 := heartbeat_fail_keep ⟨ci, cj, 3⟩ _ u _ f2 t5 m1.1
    (by show 0 + 1 + 1 < 3; decide)
  have m3 := heartbeat_success_facts ⟨ci, cj, 3⟩ _ u _ t6 m2.1
  refine ⟨⟨?_, ?_, k3.1, k3.2.1, ?_⟩, ?_, ?_⟩
  · simpa using k1.1
  · simpa using k2.1
  · rw [k3.2.2, k2.2.2, k1.2.2]
    simp
  · simpa using m3.1
  · rw [m3.2.2, m2.2.2, m1.2.2]
    simp

/-- Witness for C2 at a concrete one-task state with the default
configuration. -/
theorem C2_witness :
    (alookup wUuid (execute_heartbeat wConfig (some "x1") 1 wUuid wState).sessions =
       some { wData with consecutive_failures := 1 } ∧
     alookup wUuid (execute_heartbeat wConfig (some "x2") 2 wUuid
       (execute_heartbeat wConfig (some "x1") 1 wUuid wState)).sessions =
       some { wData with consecutive_failures := 2 } ∧
     alookup wUuid (execute_heartbeat wConfig (some "x3") 3 wUuid
       (execute_heartbeat wConfig (some "x2") 2 wUuid
         (execute_heartbeat wConfig (some "x1") 1 wUuid wState))).sessions = none ∧
     alookup wUuid (execute_heartbeat wConfig (some "x3") 3 wUuid
       (execute_heartbeat wConfig (some "x2") 2 wUuid
         (execute_heartbeat wConfig (some "x1") 1 wUuid wState))).files = none ∧
     (execute_heartbeat wConfig (some "x3") 3 wUuid
       (execute_heartbeat wConfig (some "x2") 2 wUuid
         (execute_heartbeat wConfig (some "x1") 1 wUuid wState))).notifications =
       wState.notifications ++
         [.failure wData.notify_chat_id wUuid "x1",
          .failure wData.notify_chat_id wUuid "x2",
          .failure wData.notify_chat_id wUuid "x3",
          .cleanup wData.notify_chat_id wUuid (maxFailReason 3)]) ∧
    (alookup wUuid (execute_heartbeat wConfig none 6 wUuid
       (execute_heartbeat wConfig (some "y2") 5 wUuid
         (execute_heartbeat wConfig (some "y1") 4 wUuid wState))).sessions =
       some { wData with consecutive_failures := 0, last_heartbeat := some 6 } ∧
     (execute_heartbeat wConfig none 6 wUuid
       (execute_heartbeat wConfig (some "y2") 5 wUuid
         (execute_heartbeat wConfig (some "y1") 4 wUuid wState))).notifications =
       wState.notifications ++
         [.failure wData.notify_chat_id wUuid "y1",
          .failure wData.notify_chat_id wUuid "y2",
          .success wData.notify_chat_id wUuid]) :=
  C2_threshold_cleanup wConfig wState wUuid wData "x1" "x2" "x3" "y1" "y2"
    1 2 3 4 5 6 (by decide) (by decide) (by decide)

/-- A three-character credential, used to refute claim C8 as stated. -/
def shortCred : List Char := ['a', 'b', 'c']

/-- C8 counterexample: for the non-empty credential "abc" the masked output
is the whole credential followed by the ellipsis marker — the full
credential appears unredacted, refuting "the masked output reveals a proper
prefix of s …, never the whole of s" (and the revealed prefix has length 3
here versus 10 for long inputs, so the revealed length is not one fixed
length either). -/
theorem C8_counterexample :
    shortCred ≠ [] ∧
    mask_sensitive_data shortCred 10 = shortCred ++ ellipsisMarker := by
  constructor
  · decide
  · decide

/-- C8 (amended): for every credential longer than 3 characters the masked
output is a proper prefix of the credential — of length 3 when the
credential has at most 10 characters, of length 10 otherwise — followed by
the ellipsis marker, and the full credential never appears; credentials of
at most 3 characters are emitted in full. -/
theorem C8_mask_proper_prefix_amended (cs : List Char) (h : 3 < cs.length) :
    mask_sensitive_data cs 10 =
      cs.take (if cs.length ≤ 10 then 3 else 10) ++ ellipsisMarker ∧
    (if cs.length ≤ 10 then 3 else 10) < cs.length ∧
    cs.take (if cs.length ≤ 10 then 3 else 10) ≠ cs := by
  have hne : cs ≠ [] := by
    intro he
    rw [he] at h
    simp at h
  have hk : (if cs.length ≤ 10 then 3 else 10) < cs.length := by
    by_cases hlen : cs.length ≤ 10
    · simpa [hlen] using h
    · simp only [if_neg hlen]
      omega
  refine ⟨?_, hk, ?_⟩
  · by_cases hlen : cs.length ≤ 10
    · simp [mask_sensitive_data, hne, hlen]
    · simp [mask_sensitive_data, hne, hlen]
  · intro heq
    have hlen := congrArg List.length heq
    rw [List.length_take] at hlen
    omega

/-- Witness for the amended C8 at the four-character credential "abcd". -/
theorem C8_witness :
    mask_sensitive_data ['a', 'b', 'c', 'd'] 10 =
      (['a', 'b', 'c', 'd'] : List Char).take
        (if (['a', 'b', 'c', 'd'] : List Char).length ≤ 10 then 3 else 10) ++
        ellipsisMarker ∧
    (if (['a', 'b', 'c', 'd'] : List Char).length ≤ 10 then 3 else 10) <
      (['a', 'b', 'c', 'd'] : List Char).length ∧
    (['a', 'b', 'c', 'd'] : List Char).take
        (if (['a', 'b', 'c', 'd'] : List Char).length ≤ 10 then 3 else 10) ≠
      ['a', 'b', 'c', 'd'] :=
  C8_mask_proper_prefix_amended ['a', 'b', 'c', 'd'] (by decide)

/-! ### Further association-list and counting lemmas -/

theorem mem_aerase {κ β : Type} [DecidableEq κ] {k : κ} {p : κ × β}
    {l : List (κ × β)} : p ∈ aerase k l ↔ p ∈ l ∧ p.1 ≠ k := by
  simp [aerase, List.mem_filter]

theorem mem_eq_of_nodup_akeys {κ β : Type} [DecidableEq κ] {k : κ} {v v' : β}
    {l : List (κ × β)} (hnd : (akeys l).Nodup) (h : (k, v) ∈ l)
    (h' : (k, v') ∈ l) : v = v' := by
  have e1 := alookup_of_mem_of_nodup hnd h
  have e2 := alookup_of_mem_of_nodup hnd h'
  rw [e1] at e2
  injection e2

theorem mem_akeys_iff {κ β : Type} [DecidableEq κ] {k : κ} {l : List (κ × β)} :
    k ∈ akeys l ↔ ∃ v, (k, v) ∈ l := by
  constructor
  · intro h
    obtain ⟨⟨a, b⟩, hp, he⟩ := List.mem_map.1 h
    have ha : a = k := he
    subst ha
    exact ⟨b, hp⟩
  · rintro ⟨v, hv⟩
    exact List.mem_map.2 ⟨(k, v), hv, rfl⟩

/-- Is this notification a cleanup notification for the given uuid? -/
def isCleanupFor (u : String) : Notification → Bool
  | .cleanup _ u' _ => u' == u
  | _ => false

/-- How many cleanup notifications for the given uuid a log contains. -/
def countCleanupFor (u : String) (l : List Notification) : Nat :=
  (l.filter (isCleanupFor u)).length

theorem countCleanupFor_append (u : String) (l l' : List Notification) :
    countCleanupFor u (l ++ l') = countCleanupFor u l + countCleanupFor u l' := by
  simp [countCleanupFor, List.filter_append]

theorem countCleanupFor_cleanup_self (u : String) (c : Int) (r : String) :
    countCleanupFor u [.cleanup c u r] = 1 := by
  simp [countCleanupFor, isCleanupFor]

theorem countCleanupFor_cleanup_ne {u w : String} (c : Int) (r : String)
    (h : w ≠ u) : countCleanupFor u [.cleanup c w r] = 0 := by
  simp [countCleanupFor, isCleanupFor, h]

theorem countCleanupFor_failure (u w : String) (c : Int) (e : String) :
    countCleanupFor u [.failure c w e] = 0 := by
  simp [countCleanupFor, isCleanupFor]

theorem countCleanupFor_success (u w : String) (c : Int) :
    countCleanupFor u [.success c w] = 0 := by
  simp [countCleanupFor, isCleanupFor]

/-! ### Lemmas about the grouping combinators of startup reconciliation -/

theorem mem_firstKeysAux {a : Int} :
    ∀ (l seen : List Int), a ∈ firstKeysAux seen l ↔ a ∈ l ∧ a ∉ seen := by
  intro l
  induction l with
  | nil => intro seen; simp [firstKeysAux]
  | cons t rest ih =>
    intro seen
    by_cases ht : t ∈ seen
    · simp only [firstKeysAux, if_pos ht, ih, List.mem_cons]
      constructor
      · rintro ⟨h1, h2⟩
        exact ⟨Or.inr h1, h2⟩
      · rintro ⟨h1 | h1, h2⟩
        · exact absurd (h1 ▸ ht) h2
        · exact ⟨h1, h2⟩
    · simp only [firstKeysAux, if_neg ht, List.mem_cons, ih]
      by_cases hat : a = t
      · subst hat
        simp [ht]
      · simp [hat]

theorem nodup_firstKeysAux : ∀ (l seen : List Int), (firstKeysAux seen l).Nodup := by
  intro l
  induction l with
  | nil => intro seen; simp [firstKeysAux]
  | cons t rest ih =>
    intro seen
    by_cases ht : t ∈ seen
    · simpa [firstKeysAux, if_pos ht] using ih seen
    · simp only [firstKeysAux, if_neg ht, List.nodup_cons]
      refine ⟨?_, ih (t :: seen)⟩
      intro hmem
      exact ((mem_firstKeysAux rest (t :: seen)).1 hmem).2 (by simp)

theorem mem_firstKeys {a : Int} {l : List Int} : a ∈ firstKeys l ↔ a ∈ l := by
  simp [firstKeys, mem_firstKeysAux]

theorem nodup_firstKeys (l : List Int) : (firstKeys l).Nodup :=
  nodup_firstKeysAux l []

theorem newestIn_mem : ∀ (gs : List (String × SessionData)) (g : String × SessionData),
    newestIn g gs ∈ g :: gs := by
  intro gs
  induction gs with
  | nil => intro g; simp [newestIn]
  | cons x xs ih =>
    intro g
    have hstep : newestIn g (x :: xs) =
        newestIn (if g.2.created_at < x.2.created_at then x else g) xs := rfl
    rw [hstep]
    rcases List.mem_cons.1 (ih (if g.2.created_at < x.2.created_at then x else g)) with h | h
    · rw [h]
      by_cases hlt : g.2.created_at < x.2.created_at
      · simp [hlt]
      · simp [hlt]
    · exact List.mem_cons_of_mem _ (List.mem_cons_of_mem _ h)

theorem le_newestIn : ∀ (gs : List (String × SessionData)) (g : String × SessionData),
    ∀ y ∈ g :: gs, y.2.created_at ≤ (newestIn g gs).2.created_at := by
  intro gs
  induction gs with
  | nil =>
    intro g y hy
    simp at hy
    simp [newestIn, hy]
  | cons x xs ih =>
    intro g y hy
    have hstep : (newestIn g (x :: xs)) =
        newestIn (if g.2.created_at < x.2.created_at then x else g) xs := by
      simp [newestIn]
    rw [hstep]
    have hg : g.2.created_at ≤
        (if g.2.created_at < x.2.created_at then x else g).2.created_at := by
      by_cases hlt : g.2.created_at < x.2.created_at
      · simp [hlt]
        omega
      · simp [hlt]
    have hx : x.2.created_at ≤
        (if g.2.created_at < x.2.created_at then x else g).2.created_at := by
      by_cases hlt : g.2.created_at < x.2.created_at
      · simp [hlt]
      · simp [hlt]
        omega
    have hhead := ih (if g.2.created_at < x.2.created_at then x else g)
      (if g.2.created_at < x.2.created_at then x else g) (by simp)
    rcases List.mem_cons.1 hy with h | h
    · exact le_trans (h ▸ hg) hhead
    · rcases List.mem_cons.1 h with h2 | h2
      · exact le_trans (h2 ▸ hx) hhead
      · exact ih _ y (List.mem_cons_of_mem _ h2)

theorem newestIn_eq_of_strict {gs : List (String × SessionData)}
    {g p : String × SessionData} (hmem : p ∈ g :: gs)
    (hstrict : ∀ y ∈ g :: gs, y ≠ p → y.2.created_at < p.2.created_at) :
    newestIn g gs = p := by
  by_cases he : newestIn g gs = p
  · exact he
  · have hlt := hstrict _ (newestIn_mem gs g) he
    have hle := le_newestIn gs g p hmem
    omega

theorem mem_groupFor_iff {tg : Int} {A : List (String × SessionData)}
    {p : String × SessionData} : p ∈ groupFor tg A ↔ p ∈ A ∧ p.2.tg_id = tg := by
  simp [groupFor, List.mem_filter]

/-- The kept member of a nonempty group: it is the group's `newestIn`, it
belongs to the directory, carries the group's tg_id, and dominates every
group member's `created_at`. -/
theorem keepOf_facts {tg : Int} {A : List (String × SessionData)}
    (hnd : (akeys A).Nodup) {g : String × SessionData}
    {gs : List (String × SessionData)} (hg : groupFor tg A = g :: gs) :
    keepOf tg A = some (newestIn g gs).1 ∧
    (newestIn g gs) ∈ A ∧
    (newestIn g gs).2.tg_id = tg ∧
    alookup (newestIn g gs).1 A = some (newestIn g gs).2 ∧
    ∀ y ∈ g :: gs, y.2.created_at ≤ (newestIn g gs).2.created_at := by
  have hm : newestIn g gs ∈ groupFor tg A := by
    rw [hg]
    exact newestIn_mem gs g
  have hmA : newestIn g gs ∈ A := (mem_groupFor_iff.1 hm).1
  have htg : (newestIn g gs).2.tg_id = tg := (mem_groupFor_iff.1 hm).2
  refine ⟨?_, hmA, htg, ?_, ?_⟩
  · unfold keepOf
    rw [hg]
  · exact alookup_of_mem_of_nodup hnd hmA
  · exact le_newestIn gs g

theorem mem_delsOf {tg : Int} {A : List (String × SessionData)} {u : String}
    (h : u ∈ delsOf tg A) :
    (∃ d, (u, d) ∈ groupFor tg A) ∧ some u ≠ keepOf tg A := by
  unfold delsOf at h
  cases hg : groupFor tg A with
  | nil =>
    rw [hg] at h
    simp at h
  | cons g gs =>
    cases gs with
    | nil =>
      rw [hg] at h
      simp at h
    | cons g2 gs2 =>
      rw [hg] at h
      obtain ⟨p, hp, hpe⟩ := List.mem_map.1 h
      have hpf := List.mem_filter.1 hp
      have hne : p.1 ≠ (newestIn g (g2 :: gs2)).1 := by
        have := hpf.2
        simpa using this
      subst hpe
      constructor
      · exact ⟨p.2, hpf.1⟩
      · intro hk
        unfold keepOf at hk
        rw [hg] at hk
        have h2 : p.1 = (newestIn g (g2 :: gs2)).1 := by
          injection hk
        exact hne h2

/-- A group member strictly older than some other member of its group is
deleted by reconciliation, and is not the kept member. -/
theorem mem_delsOf_of_dominated {A : List (String × SessionData)}
    {u v : String} {du dv : SessionData} (hnd : (akeys A).Nodup)
    (hu : (u, du) ∈ A) (hv : (v, dv) ∈ A) (hne : v ≠ u)
    (htg : dv.tg_id = du.tg_id) (hca : du.created_at < dv.created_at) :
    u ∈ delsOf du.tg_id A ∧ some u ≠ keepOf du.tg_id A := by
  have hug : (u, du) ∈ groupFor du.tg_id A := mem_groupFor_iff.2 ⟨hu, rfl⟩
  have hvg : (v, dv) ∈ groupFor du.tg_id A := mem_groupFor_iff.2 ⟨hv, htg⟩
  cases hg : groupFor du.tg_id A with
  | nil =>
    rw [hg] at hug
    simp at hug
  | cons g gs =>
    cases gs with
    | nil =>
      rw [hg] at hug hvg
      simp at hug hvg
      have : (v, dv) = (u, du) := hvg.trans hug.symm
      exact absurd (congrArg Prod.fst this) hne
    | cons g2 gs2 =>
      obtain ⟨hkeep, hmemA, -, hlook, hmax⟩ := keepOf_facts hnd hg
      have hvca : dv.created_at ≤ (newestIn g (g2 :: gs2)).2.created_at := by
        have := hmax (v, dv) (hg ▸ hvg)
        simpa using this
      have hneu : u ≠ (newestIn g (g2 :: gs2)).1 := by
        intro he
        have : ((newestIn g (g2 :: gs2)).1, (newestIn g (g2 :: gs2)).2) ∈ A := hmemA
        rw [← he] at this
        have hdu : (newestIn g (g2 :: gs2)).2 = du := mem_eq_of_nodup_akeys hnd this hu
        rw [hdu] at hvca
        omega
      constructor
      · unfold delsOf
        rw [hg]
        refine List.mem_map.2 ⟨(u, du), ?_, rfl⟩
        refine List.mem_filter.2 ⟨hg ▸ hug, ?_⟩
        simpa using hneu
      · rw [hkeep]
        intro hk
        exact hneu (by injection hk)

/-- A group member strictly newer than every other member of its group is
the member kept by reconciliation. -/
theorem keepOf_eq_of_strict {A : List (String × SessionData)} {u : String}
    {du : SessionData} (hnd : (akeys A).Nodup) (hu : (u, du) ∈ A)
    (hstrict : ∀ p ∈ A, p.1 ≠ u → p.2.tg_id = du.tg_id →
      p.2.created_at < du.created_at) :
    keepOf du.tg_id A = some u := by
  have hug : (u, du) ∈ groupFor du.tg_id A := mem_groupFor_iff.2 ⟨hu, rfl⟩
  cases hg : groupFor du.tg_id A with
  | nil =>
    rw [hg] at hug
    simp at hug
  | cons g gs =>
    have hnw : newestIn g gs = (u, du) := by
      refine newestIn_eq_of_strict (hg ▸ hug) ?_
      intro y hy hyne
      have hyg : y ∈ groupFor du.tg_id A := hg ▸ hy
      have hyA := (mem_groupFor_iff.1 hyg).1
      have hytg := (mem_groupFor_iff.1 hyg).2
      refine hstrict y hyA ?_ hytg
      intro hy1
      apply hyne
      have : y.2 = du := by
        have hyA' : (y.1, y.2) ∈ A := hyA
        rw [hy1] at hyA'
        exact mem_eq_of_nodup_akeys hnd hyA' hu
      calc y = (y.1, y.2) := rfl
        _ = (u, du) := by rw [hy1, this]
    rw [(keepOf_facts hnd hg).1, hnw]

theorem foldl_aupsert_eq_append :
    ∀ (fs acc : List (String × SessionData)),
      (∀ p ∈ fs, p.2.uuid = p.1) → (akeys (acc ++ fs)).Nodup →
      fs.foldl (fun a p => aupsert p.2.uuid p.2 a) acc = acc ++ fs := by
  intro fs
  induction fs with
  | nil => intro acc _ _; simp
  | cons p ps ih =>
    intro acc hwf hnd
    have hp : p.2.uuid = p.1 := hwf p (by simp)
    have hfresh : p.1 ∉ akeys acc := by
      intro hmem
      rw [akeys, List.map_append] at hnd
      exact (List.nodup_append.1 hnd).2.2 hmem (by simp)
    simp only [List.foldl_cons]
    rw [hp, aupsert_eq_append _ hfresh,
      ih (acc ++ [p]) (fun q hq => hwf q (List.mem_cons_of_mem _ hq))
        (by simpa [akeys] using hnd)]
    simp

/-- Under a well-formed directory, Phase 1 loads exactly the directory. -/
theorem load_all_eq {files : List (String × SessionData)} (hwf : WFfiles files) :
    load_all files = files := by
  unfold load_all
  have h := foldl_aupsert_eq_append files [] hwf.2 (by simpa [akeys] using hwf.1)
  simpa using h

/-- The kept uuids of startup reconciliation, in group order. -/
def keepsOf (A : List (String × SessionData)) : List String :=
  (firstKeys (A.map (fun p => p.2.tg_id))).filterMap (fun tg => keepOf tg A)

/-- The deleted uuids of startup reconciliation, in group order. -/
def delsAll (A : List (String × SessionData)) : List String :=
  (firstKeys (A.map (fun p => p.2.tg_id))).flatMap (fun tg => delsOf tg A)

/-- `initManager` is the delete fold after the keep fold. -/
theorem initManager_eq (s : MState) :
    initManager s =
      (delsAll (load_all s.files)).foldl (delStep (load_all s.files))
        ((keepsOf (load_all s.files)).foldl (keepStep (load_all s.files)) s) :=
  rfl

/-- The session-cache entries produced by the keep loop. -/
def entriesOf (A : List (String × SessionData)) (ks : List String) :
    List (String × SessionData) :=
  ks.filterMap (fun u => (alookup u A).map (fun d => (u, d)))

/-- The reverse-index entries produced by the keep loop. -/
def tgEntriesOf (A : List (String × SessionData)) (ks : List String) :
    List (Int × String) :=
  ks.filterMap (fun u => (alookup u A).map (fun d => (d.tg_id, u)))

theorem alookup_entriesOf {A : List (String × SessionData)} {u : String}
    {d : SessionData} (hl : alookup u A = some d) :
    ∀ {ks : List String}, u ∈ ks → alookup u (entriesOf A ks) = some d := by
  intro ks
  induction ks with
  | nil => intro h; simp at h
  | cons v ks ih =>
    intro h
    by_cases hv : v = u
    · subst hv
      simp only [entriesOf, List.filterMap_cons, hl, Option.map_some]
      simp [alookup]
    · have hmem : u ∈ ks := by
        rcases List.mem_cons.1 h with h1 | h1
        · exact absurd h1.symm hv
        · exact h1
      simp only [entriesOf, List.filterMap_cons]
      cases hlv : alookup v A with
      | none => exact ih hmem
      | some dv =>
        simp only [Option.map_some, alookup, if_neg hv]
        exact ih hmem

theorem alookup_entriesOf_none {A : List (String × SessionData)} {u : String} :
    ∀ {ks : List String}, u ∉ ks → alookup u (entriesOf A ks) = none := by
  intro ks
  induction ks with
  | nil => intro _; simp [entriesOf, alookup]
  | cons v ks ih =>
    intro h
    have hv : v ≠ u := fun he => h (he ▸ List.mem_cons_self v ks)
    have hks : u ∉ ks := fun hm => h (List.mem_cons_of_mem _ hm)
    simp only [entriesOf, List.filterMap_cons]
    cases hlv : alookup v A with
    | none => exact ih hks
    | some dv =>
      simp only [Option.map_some, alookup, if_neg hv]
      exact ih hks

theorem alookup_tgEntriesOf {A : List (String × SessionData)} {u : String}
    {d : SessionData} (hl : alookup u A = some d) :
    ∀ {ks : List String}, u ∈ ks →
      ks.Pairwise (fun a b => ∀ da db, alookup a A = some da →
        alookup b A = some db → da.tg_id ≠ db.tg_id) →
      alookup d.tg_id (tgEntriesOf A ks) = some u := by
  intro ks
  induction ks with
  | nil => intro h _; simp at h
  | cons v ks ih =>
    intro h hpw
    obtain ⟨hv_rel, hpw'⟩ := List.pairwise_cons.1 hpw
    by_cases hv : v = u
    · subst hv
      simp only [tgEntriesOf, List.filterMap_cons, hl, Option.map_some]
      simp [alookup]
    · have hmem : u ∈ ks := by
        rcases List.mem_cons.1 h with h1 | h1
        · exact absurd h1.symm hv
        · exact h1
      simp only [tgEntriesOf, List.filterMap_cons]
      cases hlv : alookup v A with
      | none => exact ih hmem hpw'
      | some dv =>
        have hne : dv.tg_id ≠ d.tg_id := hv_rel u hmem dv d hlv hl
        simp only [Option.map_some, alookup, if_neg hne]
        exact ih hmem hpw'

theorem mem_entriesOf {A : List (String × SessionData)}
    {p : String × SessionData} {ks : List String} (h : p ∈ entriesOf A ks) :
    p.1 ∈ ks ∧ alookup p.1 A = some p.2 := by
  obtain ⟨u, hu, he⟩ := List.mem_filterMap.1 h
  obtain ⟨d, hd, hpd⟩ := Option.map_eq_some'.1 he
  constructor
  · rw [← hpd] at *
    exact hu
  · rw [← hpd]
    exact hd

theorem mem_tgEntriesOf {A : List (String × SessionData)} {p : Int × String}
    {ks : List String} (h : p ∈ tgEntriesOf A ks) :
    ∃ d, p.2 ∈ ks ∧ alookup p.2 A = some d ∧ d.tg_id = p.1 := by
  obtain ⟨u, hu, he⟩ := List.mem_filterMap.1 h
  obtain ⟨d, hd, hpd⟩ := Option.map_eq_some'.1 he
  refine ⟨d, ?_, ?_, ?_⟩
  · rw [← hpd]
    exact hu
  · rw [← hpd]
    exact hd
  · rw [← hpd]

theorem nodup_akeys_entriesOf {A : List (String × SessionData)} :
    ∀ {ks : List String}, ks.Nodup → (akeys (entriesOf A ks)).Nodup := by
  intro ks
  induction ks with
  | nil => intro _; simp [entriesOf, akeys]
  | cons v ks ih =>
    intro hnd
    obtain ⟨hv, hnd'⟩ := List.nodup_cons.1 hnd
    simp only [entriesOf, List.filterMap_cons]
    cases hlv : alookup v A with
    | none => exact ih hnd'
    | some dv =>
      show (akeys ((v, dv) :: entriesOf A ks)).Nodup
      simp only [akeys, List.map_cons, List.nodup_cons]
      refine ⟨?_, ih hnd'⟩
      intro hmem
      obtain ⟨p, hp, hpe⟩ := List.mem_map.1 hmem
      have := (mem_entriesOf hp).1
      rw [hpe] at this
      exact hv this

theorem nodup_akeys_tgEntriesOf {A : List (String × SessionData)} :
    ∀ {ks : List String},
      ks.Pairwise (fun a b => ∀ da db, alookup a A = some da →
        alookup b A = some db → da.tg_id ≠ db.tg_id) →
      (akeys (tgEntriesOf A ks)).Nodup := by
  intro ks
  induction ks with
  | nil => intro _; simp [tgEntriesOf, akeys]
  | cons v ks ih =>
    intro hpw
    obtain ⟨hv_rel, hpw'⟩ := List.pairwise_cons.1 hpw
    simp only [tgEntriesOf, List.filterMap_cons]
    cases hlv : alookup v A with
    | none => exact ih hpw'
    | some dv =>
      show (akeys ((dv.tg_id, v) :: tgEntriesOf A ks)).Nodup
      simp only [akeys, List.map_cons, List.nodup_cons]
      refine ⟨?_, ih hpw'⟩
      intro hmem
      obtain ⟨p, hp, hpe⟩ := List.mem_map.1 hmem
      obtain ⟨dp, hpks, hplook, hptg⟩ := mem_tgEntriesOf hp
      rw [hpe] at hptg
      exact hv_rel p.2 hpks dv dp hlv hplook hptg.symm

theorem mem_addJob_self (u : String) (js : List String) : u ∈ addJob u js := by
  unfold addJob
  by_cases h : u ∈ js
  · simp [h]
  · simp [h]

theorem mem_addJob_of_mem {j : String} (u : String) {js : List String}
    (h : j ∈ js) : j ∈ addJob u js := by
  unfold addJob
  by_cases hm : u ∈ js
  · simpa [hm]
  · simp [hm, h]

/-- Closed form of the keep loop from a state whose indices are disjoint
from the kept uuids and their tg_ids. -/
theorem keepsFold_closed (A : List (String × SessionData)) :
    ∀ (ks : List String) (st : MState),
      (∀ u ∈ ks, ∃ d, alookup u A = some d) →
      ks.Nodup →
      (∀ u ∈ ks, u ∉ akeys st.sessions) →
      (∀ u d, u ∈ ks → alookup u A = some d →
        d.tg_id ∉ akeys st.tg_id_to_uuid) →
      ks.Pairwise (fun a b => ∀ da db, alookup a A = some da →
        alookup b A = some db → da.tg_id ≠ db.tg_id) →
      (ks.foldl (keepStep A) st).sessions = st.sessions ++ entriesOf A ks ∧
      (ks.foldl (keepStep A) st).tg_id_to_uuid =
        st.tg_id_to_uuid ++ tgEntriesOf A ks ∧
      (ks.foldl (keepStep A) st).files = st.files ∧
      (ks.foldl (keepStep A) st).notifications = st.notifications ∧
      (∀ u ∈ ks, u ∈ (ks.foldl (keepStep A) st).jobs) ∧
      (∀ j ∈ st.jobs, j ∈ (ks.foldl (keepStep A) st).jobs) := by
  intro ks
  induction ks with
  | nil =>
    intro st _ _ _ _ _
    simp [entriesOf, tgEntriesOf]
  | cons u ks ih =>
    intro st hk hnd hds hdt hpw
    obtain ⟨hu_ks, hnd'⟩ := List.nodup_cons.1 hnd
    obtain ⟨hpw_head, hpw'⟩ := List.pairwise_cons.1 hpw
    obtain ⟨d, hd⟩ := hk u (List.mem_cons_self u ks)
    have hstep : keepStep A st u = { st with
        sessions := st.sessions ++ [(u, d)]
        tg_id_to_uuid := st.tg_id_to_uuid ++ [(d.tg_id, u)]
        jobs := addJob u st.jobs } := by
      simp only [keepStep, hd]
      rw [aupsert_eq_append _ (hds u (List.mem_cons_self u ks)),
        aupsert_eq_append _ (hdt u d (List.mem_cons_self u ks) hd)]
    have hds' : ∀ v ∈ ks, v ∉ akeys (st.sessions ++ [(u, d)]) := by
      intro v hv hmem
      rw [akeys, List.map_append] at hmem
      rcases List.mem_append.1 hmem with h1 | h1
      · exact hds v (List.mem_cons_of_mem _ hv) h1
      · simp at h1
        exact hu_ks (h1 ▸ hv)
    have hdt' : ∀ v dv, v ∈ ks → alookup v A = some dv →
        dv.tg_id ∉ akeys (st.tg_id_to_uuid ++ [(d.tg_id, u)]) := by
      intro v dv hv hlv hmem
      rw [akeys, List.map_append] at hmem
      rcases List.mem_append.1 hmem with h1 | h1
      · exact hdt v dv (List.mem_cons_of_mem _ hv) hlv h1
      · simp at h1
        exact hpw_head v hv d dv hd hlv h1.symm
    have ihc := ih { st with
        sessions := st.sessions ++ [(u, d)]
        tg_id_to_uuid := st.tg_id_to_uuid ++ [(d.tg_id, u)]
        jobs := addJob u st.jobs }
      (fun v hv => hk v (List.mem_cons_of_mem _ hv)) hnd' hds' hdt' hpw'
    simp only [List.foldl_cons, hstep]
    obtain ⟨i1, i2, i3, i4, i5, i6⟩ := ihc
    refine ⟨?_, ?_, i3, i4, ?_, ?_⟩
    · rw [i1]
      simp [entriesOf, List.filterMap_cons, hd]
    · rw [i2]
      simp [tgEntriesOf, List.filterMap_cons, hd]
    · intro v hv
      rcases List.mem_cons.1 hv with h1 | h1
      · subst h1
        exact i6 v (mem_addJob_self v st.jobs)
      · exact i5 v h1
    · intro j hj
      exact i6 j (mem_addJob_of_mem u hj)

/-- The delete loop never touches the live index, the reverse index or the
job table. -/
theorem delsFold_fields (A : List (String × SessionData)) :
    ∀ (ds : List String) (st : MState),
      (ds.foldl (delStep A) st).sessions = st.sessions ∧
      (ds.foldl (delStep A) st).tg_id_to_uuid = st.tg_id_to_uuid ∧
      (ds.foldl (delStep A) st).jobs = st.jobs := by
  intro ds
  induction ds with
  | nil => intro st; exact ⟨rfl, rfl, rfl⟩
  | cons w ds ih =>
    intro st
    have hstep : (delStep A st w).sessions = st.sessions ∧
        (delStep A st w).tg_id_to_uuid = st.tg_id_to_uuid ∧
        (delStep A st w).jobs = st.jobs := by
      unfold delStep
      cases alookup w A <;> simp
    obtain ⟨e1, e2, e3⟩ := hstep
    obtain ⟨f1, f2, f3⟩ := ih (delStep A st w)
    simp only [List.foldl_cons]
    exact ⟨f1.trans e1, f2.trans e2, f3.trans e3⟩

theorem delsFold_files_mono (A : List (String × SessionData)) {u : String} :
    ∀ (ds : List String) (st : MState), alookup u st.files = none →
      alookup u ((ds.foldl (delStep A) st).files) = none := by
  intro ds
  induction ds with
  | nil => intro st h; exact h
  | cons w ds ih =>
    intro st h
    simp only [List.foldl_cons]
    refine ih (delStep A st w) ?_
    unfold delStep
    cases alookup w A with
    | none => exact h
    | some dw =>
      by_cases hw : w = u
      · subst hw
        simp [alookup_aerase_self]
      · show alookup u (aerase w st.files) = none
        rw [alookup_aerase_ne _ (fun he => hw he.symm)]
        exact h

theorem delsFold_files_none (A : List (String × SessionData)) {u : String}
    {d : SessionData} (hl : alookup u A = some d) :
    ∀ (ds : List String) (st : MState), u ∈ ds →
      alookup u ((ds.foldl (delStep A) st).files) = none := by
  intro ds
  induction ds with
  | nil => intro st h; simp at h
  | cons w ds ih =>
    intro st h
    simp only [List.foldl_cons]
    by_cases hw : w = u
    · subst hw
      refine delsFold_files_mono A ds (delStep A st w) ?_
      unfold delStep
      rw [hl]
      simp [alookup_aerase_self]
    · have hmem : u ∈ ds := by
        rcases List.mem_cons.1 h with h1 | h1
        · exact absurd h1.symm hw
        · exact h1
      exact ih (delStep A st w) hmem

/-- Each pass of the delete loop over an occurrence of `u` appends exactly
one cleanup notification for `u`; other uuids contribute none. -/
theorem delsFold_count (A : List (String × SessionData)) {u : String}
    {d : SessionData} (hl : alookup u A = some d) :
    ∀ (ds : List String) (st : MState),
      countCleanupFor u ((ds.foldl (delStep A) st).notifications) =
        countCleanupFor u st.notifications + ds.count u := by
  intro ds
  induction ds with
  | nil => intro st; simp
  | cons w ds ih =>
    intro st
    simp only [List.foldl_cons]
    rw [ih (delStep A st w)]
    by_cases hw : w = u
    · subst hw
      unfold delStep
      rw [hl]
      simp only [countCleanupFor_append, countCleanupFor_cleanup_self]
      rw [List.count_cons_self]
      omega
    · have hcount : (w :: ds).count u = ds.count u := by
        rw [List.count_cons_of_ne (fun he => hw (by simpa using he.symm)) ]
      rw [hcount]
      unfold delStep
      cases alookup w A with
      | none => rfl
      | some dw =>
        simp only [countCleanupFor_append, countCleanupFor_cleanup_ne _ _ hw]
        omega

theorem keepOf_lookup {A : List (String × SessionData)} {t : Int} {u : String}
    (hnd : (akeys A).Nodup) (h : keepOf t A = some u) :
    ∃ d, alookup u A = some d ∧ d.tg_id = t := by
  cases hg : groupFor t A with
  | nil =>
    unfold keepOf at h
    rw [hg] at h
    simp at h
  | cons g gs =>
    obtain ⟨hk, hmA, htg, hlook, -⟩ := keepOf_facts hnd hg
    rw [hk] at h
    have he : (newestIn g gs).1 = u := by injection h
    refine ⟨(newestIn g gs).2, ?_, htg⟩
    rw [← he]
    exact hlook

theorem mem_keepsOf_iff {A : List (String × SessionData)} {u : String} :
    u ∈ keepsOf A ↔ ∃ t, t ∈ firstKeys (A.map (fun p => p.2.tg_id)) ∧
      keepOf t A = some u := by
  unfold keepsOf
  simp [List.mem_filterMap]

theorem mem_delsAll_iff {A : List (String × SessionData)} {u : String} :
    u ∈ delsAll A ↔ ∃ t, t ∈ firstKeys (A.map (fun p => p.2.tg_id)) ∧
      u ∈ delsOf t A := by
  unfold delsAll
  simp [List.mem_flatMap]

theorem keepsOf_lookup {A : List (String × SessionData)} (hnd : (akeys A).Nodup) :
    ∀ u ∈ keepsOf A, ∃ d, alookup u A = some d := by
  intro u hu
  obtain ⟨t, -, hk⟩ := mem_keepsOf_iff.1 hu
  obtain ⟨d, hd, -⟩ := keepOf_lookup hnd hk
  exact ⟨d, hd⟩

theorem keepsOf_nodup {A : List (String × SessionData)} (hnd : (akeys A).Nodup) :
    (keepsOf A).Nodup := by
  unfold keepsOf
  refine List.Nodup.filterMap ?_ (nodup_firstKeys _)
  intro t1 t2 u h1 h2
  rw [Option.mem_def] at h1 h2
  obtain ⟨d1, hd1, ht1⟩ := keepOf_lookup hnd h1
  obtain ⟨d2, hd2, ht2⟩ := keepOf_lookup hnd h2
  rw [hd1] at hd2
  injection hd2 with hd
  rw [← ht1, ← ht2, hd]

theorem keepsOf_pairwise {A : List (String × SessionData)} (hnd : (akeys A).Nodup) :
    (keepsOf A).Pairwise (fun a b => ∀ da db, alookup a A = some da →
      alookup b A = some db → da.tg_id ≠ db.tg_id) := by
  unfold keepsOf
  rw [List.pairwise_filterMap]
  refine (nodup_firstKeys _).imp ?_
  intro t1 t2 hne u hu v hv da db hda hdb
  rw [Option.mem_def] at hu hv
  obtain ⟨d1, hd1, ht1⟩ := keepOf_lookup hnd hu
  obtain ⟨d2, hd2, ht2⟩ := keepOf_lookup hnd hv
  rw [hda] at hd1
  rw [hdb] at hd2
  injection hd1 with e1
  injection hd2 with e2
  rw [e1, ht1, e2, ht2]
  exact hne

theorem delsOf_nodup {A : List (String × SessionData)} (hnd : (akeys A).Nodup)
    (t : Int) : (delsOf t A).Nodup := by
  have hsub : List.Sublist (groupFor t A) A := List.filter_sublist _
  cases hg : groupFor t A with
  | nil =>
    unfold delsOf
    rw [hg]
    simp
  | cons g gs =>
    cases gs with
    | nil =>
      unfold delsOf
      rw [hg]
      simp
    | cons g2 gs2 =>
      unfold delsOf
      rw [hg]
      rw [hg] at hsub
      have hsub2 : List.Sublist
          ((g :: g2 :: gs2).filter
            (fun p => p.1 ≠ (newestIn g (g2 :: gs2)).1)) A :=
        (List.filter_sublist _).trans hsub
      exact ((hsub2.map Prod.fst).nodup hnd)

theorem delsOf_lookup {A : List (String × SessionData)} {t : Int} {u : String}
    (hnd : (akeys A).Nodup) (h : u ∈ delsOf t A) :
    ∃ d, alookup u A = some d ∧ d.tg_id = t := by
  obtain ⟨⟨d, hd⟩, -⟩ := mem_delsOf h
  have hA := (mem_groupFor_iff.1 hd).1
  have htg := (mem_groupFor_iff.1 hd).2
  exact ⟨d, alookup_of_mem_of_nodup hnd hA, htg⟩

theorem delsAll_nodup {A : List (String × SessionData)} (hnd : (akeys A).Nodup) :
    (delsAll A).Nodup := by
  unfold delsAll
  rw [List.nodup_flatMap]
  refine ⟨fun t _ => delsOf_nodup hnd t, ?_⟩
  refine (nodup_firstKeys _).imp ?_
  intro t1 t2 hne u h1 h2
  obtain ⟨d1, hd1, ht1⟩ := delsOf_lookup hnd h1
  obtain ⟨d2, hd2, ht2⟩ := delsOf_lookup hnd h2
  rw [hd1] at hd2
  injection hd2 with hd
  exact hne (ht1 ▸ hd ▸ ht2)

theorem delsAll_lookup {A : List (String × SessionData)} {u : String}
    (hnd : (akeys A).Nodup) (h : u ∈ delsAll A) :
    ∃ d, alookup u A = some d := by
  obtain ⟨t, -, hdt⟩ := mem_delsAll_iff.1 h
  obtain ⟨d, hd, -⟩ := delsOf_lookup hnd hdt
  exact ⟨d, hd⟩

theorem not_mem_delsAll_of_keep {A : List (String × SessionData)} {u : String}
    {d : SessionData} (hnd : (akeys A).Nodup) (hl : alookup u A = some d)
    (hk : keepOf d.tg_id A = some u) : u ∉ delsAll A := by
  intro hmem
  obtain ⟨t, -, hdt⟩ := mem_delsAll_iff.1 hmem
  obtain ⟨d', hd', ht'⟩ := delsOf_lookup hnd hdt
  rw [hl] at hd'
  injection hd' with he
  have : t = d.tg_id := by rw [← ht', he]
  subst this
  exact (mem_delsOf hdt).2 hk.symm

theorem not_mem_keepsOf_of_dominated {A : List (String × SessionData)}
    {u : String} {d : SessionData} (hnd : (akeys A).Nodup)
    (hl : alookup u A = some d) (hnk : some u ≠ keepOf d.tg_id A) :
    u ∉ keepsOf A := by
  intro hmem
  obtain ⟨t, -, hk⟩ := mem_keepsOf_iff.1 hmem
  obtain ⟨d', hd', ht'⟩ := keepOf_lookup hnd hk
  rw [hl] at hd'
  injection hd' with he
  have : t = d.tg_id := by rw [← ht', he]
  subst this
  exact hnk hk.symm

theorem mem_delsAll_of_delsOf {A : List (String × SessionData)} {u : String}
    {d : SessionData} (hl : alookup u A = some d)
    (h : u ∈ delsOf d.tg_id A) : u ∈ delsAll A := by
  refine mem_delsAll_iff.2 ⟨d.tg_id, ?_, h⟩
  rw [mem_firstKeys]
  have hm := alookup_eq_some_mem hl
  exact List.mem_map.2 ⟨(u, d), hm, rfl⟩

theorem mem_keepsOf_of_keep {A : List (String × SessionData)} {u : String}
    {d : SessionData} (hl : alookup u A = some d)
    (hk : keepOf d.tg_id A = some u) : u ∈ keepsOf A := by
  refine mem_keepsOf_iff.2 ⟨d.tg_id, ?_, hk⟩
  rw [mem_firstKeys]
  have hm := alookup_eq_some_mem hl
  exact List.mem_map.2 ⟨(u, d), hm, rfl⟩

/-- The full effect of startup reconciliation on a fresh manager over a
well-formed directory: the live index and reverse index are exactly the
kept entries, every kept uuid is scheduled, every deleted uuid's file is
gone, and the cleanup-notification count of any uuid on disk equals its
number of occurrences in the delete list. -/
theorem initManager_initState_facts (files : List (String × SessionData))
    (hwf : WFfiles files) :
    (initManager (initState files)).sessions = entriesOf files (keepsOf files) ∧
    (initManager (initState files)).tg_id_to_uuid =
      tgEntriesOf files (keepsOf files) ∧
    (∀ u ∈ keepsOf files, u ∈ (initManager (initState files)).jobs) ∧
    (∀ u d, alookup u files = some d → u ∈ delsAll files →
      alookup u (initManager (initState files)).files = none) ∧
    (∀ u d, alookup u files = some d →
      countCleanupFor u (initManager (initState files)).notifications =
        (delsAll files).count u) := by
  have hnd : (akeys files).Nodup := hwf.1
  have hload : load_all (initState files).files = files := load_all_eq hwf
  rw [initManager_eq, hload]
  have hkf := keepsFold_closed files (keepsOf files) (initState files)
    (keepsOf_lookup hnd) (keepsOf_nodup hnd)
    (by intro u _ hm; simp [initState, akeys] at hm)
    (by intro u d _ _ hm; simp [initState, akeys] at hm)
    (keepsOf_pairwise hnd)
  obtain ⟨hs, ht, hf, hn, hj, -⟩ := hkf
  have hdf := delsFold_fields files (delsAll files)
    ((keepsOf files).foldl (keepStep files) (initState files))
  obtain ⟨ds, dt, dj⟩ := hdf
  refine ⟨?_, ?_, ?_, ?_, ?_⟩
  · rw [ds, hs]
    simp [initState]
  · rw [dt, ht]
    simp [initState]
  · intro u hu
    rw [dj]
    exact hj u hu
  · intro u d hl hdel
    exact delsFold_files_none files hl _ _ hdel
  · intro u d hl
    rw [delsFold_count files hl _ _, hn]
    simp [initState, countCleanupFor]

/-- Startup reconciliation of a fresh manager establishes the index
invariant, whatever the directory contained. -/
theorem inv_initManager_initState (files : List (String × SessionData))
    (hwf : WFfiles files) : Inv (initManager (initState files)) := by
  have hnd : (akeys files).Nodup := hwf.1
  obtain ⟨hs, ht, -, -, -⟩ := initManager_initState_facts files hwf
  refine ⟨?_, ?_, ?_, ?_⟩
  · rw [hs]
    exact nodup_akeys_entriesOf (keepsOf_nodup hnd)
  · rw [ht]
    exact nodup_akeys_tgEntriesOf (keepsOf_pairwise hnd)
  · intro p hp
    rw [ht] at hp
    obtain ⟨d, hks, hlook, htg⟩ := mem_tgEntriesOf hp
    refine ⟨d, ?_, htg⟩
    rw [hs]
    exact alookup_entriesOf hlook hks
  · intro p hp
    rw [hs] at hp
    obtain ⟨hks, hlook⟩ := mem_entriesOf hp
    rw [ht]
    exact alookup_tgEntriesOf hlook hks (keepsOf_pairwise hnd)

/-- `cleanup_task` preserves the index invariant. -/
theorem inv_cleanup (unlinkOk : Bool) (u r : String) {s : MState} (h : Inv s) :
    Inv (cleanup_task unlinkOk u r s) := by
  obtain ⟨hnds, hndt, hcor, hcomp⟩ := h
  cases hd : alookup u s.sessions with
  | none =>
    rw [cleanup_task_of_none unlinkOk r hd]
    exact ⟨hnds, hndt, hcor, hcomp⟩
  | some d =>
    have hmem : (u, d) ∈ s.sessions := alookup_eq_some_mem hd
    have hm : alookup d.tg_id s.tg_id_to_uuid = some u := hcomp (u, d) hmem
    have hsn : (cleanup_task unlinkOk u r s).sessions = aerase u s.sessions :=
      cleanup_task_sessions unlinkOk r hd
    have htn : (cleanup_task unlinkOk u r s).tg_id_to_uuid =
        aerase d.tg_id s.tg_id_to_uuid :=
      cleanup_task_tgmap_of_points unlinkOk r hd hm
    refine ⟨?_, ?_, ?_, ?_⟩
    · rw [hsn]
      exact nodup_akeys_aerase hnds
    · rw [htn]
      exact nodup_akeys_aerase hndt
    · intro p hp
      rw [htn] at hp
      obtain ⟨hpmem, hpne⟩ := mem_aerase.1 hp
      obtain ⟨e, he, hetg⟩ := hcor p hpmem
      have hpu : p.2 ≠ u := by
        intro heq
        rw [heq, hd] at he
        injection he with he2
        exact hpne (he2.symm ▸ hetg).symm
      refine ⟨e, ?_, hetg⟩
      rw [hsn, alookup_aerase_ne _ hpu]
      exact he
    · intro p hp
      rw [hsn] at hp
      obtain ⟨hpmem, hpne⟩ := mem_aerase.1 hp
      have hc := hcomp p hpmem
      have hptg : p.2.tg_id ≠ d.tg_id := by
        intro heq
        rw [heq, hm] at hc
        injection hc with hc2
        exact hpne hc2.symm
      rw [htn, alookup_aerase_ne _ hptg]
      exact hc

/-- State equation for `create_task` when no task holds the tg_id yet. -/
theorem create_task_ok_none {s : MState} {tg_id : Int} (newUuid : String)
    (now : Nat) (session_string : String) (notify_chat_id : Int)
    (h : alookup tg_id s.tg_id_to_uuid = none) :
    (create_task (.ok tg_id) newUuid now session_string notify_chat_id s).2 =
      { sessions := aupsert newUuid
          { uuid := newUuid, tg_id := tg_id, session_string := session_string
            notify_chat_id := notify_chat_id, consecutive_failures := 0
            created_at := now, last_heartbeat := none } s.sessions
        tg_id_to_uuid := aupsert tg_id newUuid s.tg_id_to_uuid
        files := aupsert newUuid
          { uuid := newUuid, tg_id := tg_id, session_string := session_string
            notify_chat_id := notify_chat_id, consecutive_failures := 0
            created_at := now, last_heartbeat := none } s.files
        jobs := addJob newUuid s.jobs
        notifications := s.notifications } := by
  simp [create_task, h]

/-- State equation for `create_task` when an existing task for the tg_id is
replaced: the old task is fully cleaned up first. -/
theorem create_task_ok_some {s : MState} {tg_id : Int} {old : String}
    (newUuid : String) (now : Nat) (session_string : String)
    (notify_chat_id : Int) (h : alookup tg_id s.tg_id_to_uuid = some old) :
    (create_task (.ok tg_id) newUuid now session_string notify_chat_id s).2 =
      (let s1 := cleanup_task true old replacedReason s;
      { sessions := aupsert newUuid
          { uuid := newUuid, tg_id := tg_id, session_string := session_string
            notify_chat_id := notify_chat_id, consecutive_failures := 0
            created_at := now, last_heartbeat := none } s1.sessions
        tg_id_to_uuid := aupsert tg_id newUuid s1.tg_id_to_uuid
        files := aupsert newUuid
          { uuid := newUuid, tg_id := tg_id, session_string := session_string
            notify_chat_id := notify_chat_id, consecutive_failures := 0
            created_at := now, last_heartbeat := none } s1.files
        jobs := addJob newUuid s1.jobs
        notifications := s1.notifications }) := by
  simp [create_task, h]

/-- The common insertion step of `create_task` preserves the invariant,
provided the tg_id is unindexed, no live task carries it, and the new uuid
is fresh. -/
theorem inv_insert {s1 : MState} (tg_id : Int) (newUuid : String)
    (d : SessionData) (jobs2 : List String)
    (notifications2 : List Notification) (hdtg : d.tg_id = tg_id) (h : Inv s1)
    (hmap : alookup tg_id s1.tg_id_to_uuid = none)
    (hnotg : ∀ p ∈ s1.sessions, p.2.tg_id ≠ tg_id)
    (hfresh : newUuid ∉ akeys s1.sessions) :
    Inv { sessions := aupsert newUuid d s1.sessions
          tg_id_to_uuid := aupsert tg_id newUuid s1.tg_id_to_uuid
          files := aupsert newUuid d s1.files
          jobs := jobs2
          notifications := notifications2 } := by
  obtain ⟨hnds, hndt, hcor, hcomp⟩ := h
  have htgfresh : tg_id ∉ akeys s1.tg_id_to_uuid := alookup_eq_none_iff.1 hmap
  have hsess : aupsert newUuid d s1.sessions = s1.sessions ++ [(newUuid, d)] :=
    aupsert_eq_append _ hfresh
  have hmap2 : aupsert tg_id newUuid s1.tg_id_to_uuid =
      s1.tg_id_to_uuid ++ [(tg_id, newUuid)] :=
    aupsert_eq_append _ htgfresh
  refine ⟨?_, ?_, ?_, ?_⟩
  · exact nodup_akeys_aupsert hnds
  · exact nodup_akeys_aupsert hndt
  · intro p hp
    simp only [hmap2] at hp
    rcases List.mem_append.1 hp with h1 | h1
    · obtain ⟨e, he, hetg⟩ := hcor p h1
      have hpu : p.2 ≠ newUuid := by
        intro heq
        apply hfresh
        rw [← heq]
        exact mem_akeys_iff.2 ⟨e, alookup_eq_some_mem he⟩
      refine ⟨e, ?_, hetg⟩
      simp only [alookup_aupsert_ne _ _ hpu]
      exact he
    · simp only [List.mem_singleton] at h1
      subst h1
      exact ⟨d, alookup_aupsert_self .., hdtg⟩
  · intro p hp
    simp only [hsess] at hp
    rcases List.mem_append.1 hp with h1 | h1
    · have hc := hcomp p h1
      have hptg : p.2.tg_id ≠ tg_id := hnotg p h1
      simp only [alookup_aupsert_ne _ _ hptg]
      exact hc
    · simp only [List.mem_singleton] at h1
      subst h1
      show alookup d.tg_id (aupsert tg_id newUuid s1.tg_id_to_uuid) = some newUuid
      rw [hdtg]
      exact alookup_aupsert_self ..

/-- `create_task` with a successful validation preserves the index
invariant, provided the fresh uuid is unused. -/
theorem inv_create (tg_id : Int) (newUuid : String) (now : Nat)
    (session_string : String) (notify_chat_id : Int) {s : MState} (h : Inv s)
    (hfresh : newUuid ∉ akeys s.sessions) :
    Inv (create_task (.ok tg_id) newUuid now session_string
      notify_chat_id s).2 := by
  cases hm : alookup tg_id s.tg_id_to_uuid with
  | none =>
    rw [create_task_ok_none newUuid now session_string notify_chat_id hm]
    refine inv_insert tg_id newUuid _ _ _ rfl h hm ?_ hfresh
    intro p hp heq
    have hc := h.2.2.2 p hp
    rw [heq, hm] at hc
    exact Option.noConfusion hc
  | some old =>
    rw [create_task_ok_some newUuid now session_string notify_chat_id hm]
    obtain ⟨e, he, hetg⟩ := h.2.2.1 (tg_id, old) (alookup_eq_some_mem hm)
    have hm' : alookup e.tg_id s.tg_id_to_uuid = some old := by
      rw [hetg]
      exact hm
    have hsn : (cleanup_task true old replacedReason s).sessions =
        aerase old s.sessions :=
      cleanup_task_sessions true replacedReason he
    have htn : (cleanup_task true old replacedReason s).tg_id_to_uuid =
        aerase e.tg_id s.tg_id_to_uuid :=
      cleanup_task_tgmap_of_points true replacedReason he hm'
    refine inv_insert tg_id newUuid _ _ _ rfl
      (inv_cleanup true old replacedReason h) ?_ ?_ ?_
    · rw [htn, hetg]
      exact alookup_aerase_self ..
    · intro p hp heq
      rw [hsn] at hp
      obtain ⟨hpmem, hpne⟩ := mem_aerase.1 hp
      have hc := h.2.2.2 p hpmem
      rw [heq, hm] at hc
      injection hc with hc2
      exact hpne hc2.symm
    · intro hmem
      rw [hsn] at hmem
      apply hfresh
      obtain ⟨v, hv⟩ := mem_akeys_iff.1 hmem
      exact mem_akeys_iff.2 ⟨v, (mem_aerase.1 hv).1⟩

/-- Every state reachable with startup reconciliation only as the first
operation satisfies the full index invariant. -/
theorem inv_of_reachInit {s : MState} (h : ReachInit s) : Inv s := by
  induction h with
  | startRaw files hwf =>
    refine ⟨?_, ?_, ?_, ?_⟩
    · simp [initState, akeys]
    · simp [initState, akeys]
    · intro p hp
      simp [initState] at hp
    · intro p hp
      simp [initState] at hp
  | startInit files hwf => exact inv_initManager_initState files hwf
  | stepCreate tg_id newUuid now session_string notify_chat_id hfresh _ ih =>
    exact inv_create tg_id newUuid now session_string notify_chat_id ih hfresh.1
  | stepCleanup unlinkOk uuid reason _ ih => exact inv_cleanup unlinkOk uuid reason ih

/-! #### C1: fixture for the counterexample -/

def cexOldUuid : String := "11111111-1111-4111-8111-111111111111"

def cexNewUuid : String := "22222222-2222-4222-8222-222222222222"

/-- A record already on disk before the manager starts, with `created_at`
later than the clock at the time of the `create_task` call below (a file
imported from another machine, or clock skew). -/
def cexFileData : SessionData :=
  { uuid := cexOldUuid, tg_id := 1, session_string := "sess-old"
    notify_chat_id := 7, consecutive_failures := 0, created_at := 100
    last_heartbeat := none }

def cexFiles : List (String × SessionData) := [(cexOldUuid, cexFileData)]

/-- The state after `create_task` (for the same tg_id 1, at time 50) runs
before startup reconciliation, followed by `initialize`: reconciliation
keeps the on-disk record — it is newer — and inserts it into the live index
without removing the live task created moments before. -/
def cexState : MState :=
  initManager ((create_task (.ok 1) cexNewUuid 50 "sess-new" 8
    (initState cexFiles)).2)

/-- C1 counterexample: the claim quantifies over any sequence of
initialize, create_task and cleanup_task operations, but when a create_task
precedes initialize and a conflicting record (same tg_id, newer
`created_at`) already sits in the data directory, reconciliation inserts a
second live task with the same tg_id and leaves the reverse index pointing
away from the still-live first task: the state is reachable and violates
the invariant. -/
theorem C1_counterexample :
    Reach cexState ∧
    ¬ (tgUnique cexState ∧ revCorrect cexState ∧ revComplete cexState) :=
  ⟨Reach.stepInit (Reach.stepCreate 1 cexNewUuid 50 "sess-new" 8 (by decide)
      (Reach.start cexFiles (by decide))),
   fun h => (by decide : ¬ tgUnique cexState) h.1⟩

/-- C1 (amended): for every state reachable when startup reconciliation is
performed at most once and only as the first operation — the program's
actual call pattern — followed by any sequence of create_task and
cleanup_task operations (with fresh uuids, and whether or not file deletion
succeeds), live tasks have pairwise distinct tg_ids and the reverse index
maps each indexed tg_id to the uuid of the unique live task carrying it,
and every live task is indexed. -/
theorem C1_uniqueness_invariant_amended (s : MState) (h : ReachInit s) :
    tgUnique s ∧ revCorrect s ∧ revComplete s :=
  ⟨tgUnique_of_inv (inv_of_reachInit h), (inv_of_reachInit h).2.2.1,
   (inv_of_reachInit h).2.2.2⟩

/-- Witness for the amended C1: a state reached by one create_task from an
empty directory. -/
theorem C1_witness :
    tgUnique (create_task (.ok 42) wUuid 10 "w-sess" 5 (initState [])).2 ∧
    revCorrect (create_task (.ok 42) wUuid 10 "w-sess" 5 (initState [])).2 ∧
    revComplete (create_task (.ok 42) wUuid 10 "w-sess" 5 (initState [])).2 :=
  C1_uniqueness_invariant_amended _
    (ReachInit.stepCreate 42 wUuid 10 "w-sess" 5 (by decide)
      (ReachInit.startRaw [] (by decide)))

/-- C3: startup reconciliation groups the loaded records by tg_id; a record
with a strictly newer same-tg_id sibling is not admitted, its file is
deleted, and exactly one cleanup notification referencing its uuid is
issued; a record strictly newer than all its same-tg_id siblings is
admitted into the live index, scheduled, and receives no cleanup
notification. -/
theorem C3_startup_reconciliation (files : List (String × SessionData))
    (u : String) (d : SessionData) (hwf : WFfiles files)
    (hmem : (u, d) ∈ files) :
    ((∃ v e, (v, e) ∈ files ∧ v ≠ u ∧ e.tg_id = d.tg_id ∧
        d.created_at < e.created_at) →
      alookup u (initManager (initState files)).sessions = none ∧
      alookup u (initManager (initState files)).files = none ∧
      countCleanupFor u (initManager (initState files)).notifications = 1) ∧
    ((∀ p ∈ files, p.1 ≠ u → p.2.tg_id = d.tg_id →
        p.2.created_at < d.created_at) →
      alookup u (initManager (initState files)).sessions = some d ∧
      u ∈ (initManager (initState files)).jobs ∧
      countCleanupFor u (initManager (initState files)).notifications = 0) := by
  have hnd : (akeys files).Nodup := hwf.1
  have hl : alookup u files = some d := alookup_of_mem_of_nodup hnd hmem
  obtain ⟨hs, ht, hj, hfdel, hcount⟩ := initManager_initState_facts files hwf
  constructor
  · rintro ⟨v, e, hvmem, hvne, hvtg, hvca⟩
    have hdom := mem_delsOf_of_dominated hnd hmem hvmem hvne hvtg hvca
    have hdels : u ∈ delsAll files := mem_delsAll_of_delsOf hl hdom.1
    have hnk : u ∉ keepsOf files :=
      not_mem_keepsOf_of_dominated hnd hl hdom.2
    refine ⟨?_, hfdel u d hl hdels, ?_⟩
    · rw [hs]
      exact alookup_entriesOf_none hnk
    · rw [hcount u d hl]
      exact List.count_eq_one_of_mem (delsAll_nodup hnd) hdels
  · intro hstrict
    have hk : keepOf d.tg_id files = some u := keepOf_eq_of_strict hnd hmem hstrict
    have hkm : u ∈ keepsOf files := mem_keepsOf_of_keep hl hk
    refine ⟨?_, hj u hkm, ?_⟩
    · rw [hs]
      exact alookup_entriesOf hl hkm
    · rw [hcount u d hl, List.count_eq_zero]
      exact not_mem_delsAll_of_keep hnd hl hk

/-! #### C3: fixture for the witness -/

def dU1 : String := "55555555-5555-4555-8555-555555555555"

def dU2 : String := "66666666-6666-4666-8666-666666666666"

def dData1 : SessionData :=
  { uuid := dU1, tg_id := 42, session_string := "sess-1", notify_chat_id := 9
    consecutive_failures := 0, created_at := 100, last_heartbeat := none }

def dData2 : SessionData :=
  { uuid := dU2, tg_id := 42, session_string := "sess-2", notify_chat_id := 9
    consecutive_failures := 0, created_at := 200, last_heartbeat := none }

def dFiles : List (String × SessionData) := [(dU1, dData1), (dU2, dData2)]

/-- Witness for C3: two records with the same tg_id 42 and
`created_at` 100 < 200; only the newer survives and is scheduled, the older
one's file is deleted with exactly one cleanup notification. -/
theorem C3_witness :
    (alookup dU1 (initManager (initState dFiles)).sessions = none ∧
     alookup dU1 (initManager (initState dFiles)).files = none ∧
     countCleanupFor dU1 (initManager (initState dFiles)).notifications = 1) ∧
    (alookup dU2 (initManager (initState dFiles)).sessions = some dData2 ∧
     dU2 ∈ (initManager (initState dFiles)).jobs ∧
     countCleanupFor dU2 (initManager (initState dFiles)).notifications = 0) :=
  ⟨(C3_startup_reconciliation dFiles dU1 dData1 (by decide) (by decide)).1
      ⟨dU2, dData2, by decide, by decide, by decide, by decide⟩,
   (C3_startup_reconciliation dFiles dU2 dData2 (by decide) (by decide)).2
      (by decide)⟩

end TgSessionWeb
